import Mathlib

/-!
Verification development for the qmt geometry data classes
(`src/qmt/data/geometry.py`).

The Python source is shallowly embedded:
* 3D points (numpy length-3 arrays) become the structure `Vec3` over `ℚ`;
  floating-point tolerance becomes exact equality;
* shapely polygon objects are an abstract type `P` together with a record
  `ShapelyOps` of the shapely primitives the source calls (`Polygon(...)`,
  `.area`, `.contains`, `.difference`, `.is_valid`) plus the boolean result
  of the local `_is_inside` helper (which composes the shapely
  representative-point search, `_inverse_project` and the external FreeCAD
  `Part.Solid.isInside` query; no claim depends on its internals, so it
  enters the model as a single oracle `isInside3D`);
* Python dicts become insertion-ordered association lists keyed by `String`;
* raising an exception becomes returning `Except.error`;
* the process-wide FreeCAD "active document" state is tracked by a boolean
  returned next to the result of `xsec_to_2d`: `true` means the document
  opened by `get_data("fcdoc")` was still open when control left the
  function.
-/

/-- A 3D vector (numpy array of length 3 in the source). -/
structure Vec3 where
  x : ℚ
  y : ℚ
  z : ℚ
deriving DecidableEq, Repr

/-- numpy `dot` on length-3 vectors. -/
def dot (a b : Vec3) : ℚ :=
  a.x * b.x + a.y * b.y + a.z * b.z

/-- numpy `cross` on length-3 vectors. -/
def cross (a b : Vec3) : Vec3 :=
  ⟨a.y * b.z - a.z * b.y, a.z * b.x - a.x * b.z, a.x * b.y - a.y * b.x⟩

instance : Add Vec3 := ⟨fun a b => ⟨a.x + b.x, a.y + b.y, a.z + b.z⟩⟩

instance : Sub Vec3 := ⟨fun a b => ⟨a.x - b.x, a.y - b.y, a.z - b.z⟩⟩

instance : Neg Vec3 := ⟨fun a => ⟨-a.x, -a.y, -a.z⟩⟩

instance : SMul ℚ Vec3 := ⟨fun c a => ⟨c * a.x, c * a.y, c * a.z⟩⟩

/-- `np.argmax(np.abs(v))` for a length-3 vector: the first index attaining
the maximal absolute value (geometry.py line 542). -/
def np_argmax_abs (v : Vec3) : Nat :=
  if |v.y| > |v.x| then (if |v.z| > |v.y| then 2 else 1)
  else (if |v.z| > |v.x| then 2 else 0)

/-- The fixed world axis seeding the in-plane axis in `Geo3DData.xsec_to_2d`
(geometry.py line 543):
`y_new = np.array([0, 1.0, 0]) if ind == 0 else np.array([1.0, 0, 0])`. -/
def seedAxis (x_new : Vec3) : Vec3 :=
  if np_argmax_abs x_new = 0 then ⟨0, 1, 0⟩ else ⟨1, 0, 0⟩

/-- geometry.py line 544: `y_new -= y_new.dot(x_new) * x_new`. -/
def frame_y (x_new : Vec3) : Vec3 :=
  seedAxis x_new - (dot (seedAxis x_new) x_new) • x_new

/-- geometry.py lines 545-548: `z_new = np.cross(x_new, y_new)` followed by
`if z_new[2] < 0: z_new = -z_new`. -/
def frame_z (x_new : Vec3) : Vec3 :=
  let z := cross x_new (frame_y x_new)
  if z.z < 0 then -z else z

/-- The local `_project` helper of `xsec_to_2d` (geometry.py 550-564):
`vec = vec - x_new * distance; return [vec.dot(y_new), vec.dot(z_new)]`. -/
def proj_plane (x_new : Vec3) (distance : ℚ) (vec : Vec3) : ℚ × ℚ :=
  let w := vec - distance • x_new
  (dot w (frame_y x_new), dot w (frame_z x_new))

/-- The local `_inverse_project` helper of `xsec_to_2d` (geometry.py
566-583): `x_new * distance + vec[0] * y_new + vec[1] * z_new`. -/
def inverse_project (x_new : Vec3) (distance : ℚ) (vec : ℚ × ℚ) : Vec3 :=
  distance • x_new + vec.1 • frame_y x_new + vec.2 • frame_z x_new

/-- `Part3DData` (geometry.py 704-863).  The reference to another part held
by `target_wire` is abstracted into a type parameter `W`; every other
stored attribute is kept.  Python `None` becomes `none`.  The `litho_base`
attribute keeps the `Option` type of the constructor argument so the two
can be compared (after `__init__` it is always `some` of a list). -/
structure Part3DData (W : Type) where
  label : String
  fc_name : Option String
  directive : String
  domain_type : Option String
  material : Option String
  z0 : ℚ
  thickness : Option ℚ
  target_wire : Option W
  shell_verts : Option (List Vec3)
  depo_mode : Option String
  z_middle : Option ℚ
  t_in : Option ℚ
  t_out : Option ℚ
  layer_num : Option Int
  litho_base : Option (List String)
  mesh_max_size : Option ℚ
  mesh_min_size : Option ℚ
  mesh_growth_rate : Option ℚ
  mesh_scale_vector : Option (ℚ × ℚ × ℚ)
  boundary_condition : Option (List (String × ℚ))
  ns : Option ℚ
  phi_nl : Option ℚ
  ds : Option ℚ
  serial_stp : Option String
  serial_stl : Option String
  built_fc_name : Option String
deriving DecidableEq, Repr

/-- The six valid construction directives (geometry.py 819-826). -/
def valid_directives : List String :=
  ["extrude", "wire", "wire_shell", "SAG", "lithography", "3d_shape"]

/-- The four valid domain classifications (geometry.py 830). -/
def valid_domain_types : List String :=
  ["semiconductor", "metal_gate", "virtual", "dielectric"]

/-- `Part3DData.__init__` (geometry.py 791-863): validation of the
directive, the domain type and the `ns` restriction, then storage of the
arguments (`litho_base` of `None` is stored as the empty list; the three
serial/built attributes start as `None`). -/
def part3d_init (W : Type) (label : String) (fc_name : Option String) (directive : String)
    (domain_type : Option String) (material : Option String) (z0 : ℚ) (thickness : Option ℚ)
    (target_wire : Option W) (shell_verts : Option (List Vec3)) (depo_mode : Option String)
    (z_middle : Option ℚ) (t_in : Option ℚ) (t_out : Option ℚ) (layer_num : Option Int)
    (litho_base : Option (List String)) (mesh_max_size : Option ℚ) (mesh_min_size : Option ℚ)
    (mesh_growth_rate : Option ℚ) (mesh_scale_vector : Option (ℚ × ℚ × ℚ))
    (boundary_condition : Option (List (String × ℚ))) (ns : Option ℚ) (phi_nl : Option ℚ)
    (ds : Option ℚ) : Except String (Part3DData W) :=
  if directive ∉ valid_directives then
    .error "Error - directive is not a valid directive"
  else if domain_type ∉ valid_domain_types.map some then
    .error "Error - domainType not valid"
  else if domain_type ∉ ["semiconductor", "dielectric"].map some ∧ ns ≠ none then
    .error "Cannot set a volume charge density on a gate or virtual part."
  else
    .ok ⟨label, fc_name, directive, domain_type, material, z0, thickness, target_wire,
      shell_verts, depo_mode, z_middle, t_in, t_out, layer_num, some (litho_base.getD []),
      mesh_max_size, mesh_min_size, mesh_growth_rate, mesh_scale_vector, boundary_condition,
      ns, phi_nl, ds, none, none, none⟩

/-- The shapely / FreeCAD primitives called by the source, bundled as an
abstract interface over the polygon representation `P` (these libraries are
external to the repository).  `isInside3D` is the boolean produced by the
local `_is_inside` helper (geometry.py 633-666) for a resolved polygon and
the owning `Part3DData`. -/
structure ShapelyOps (P W : Type) where
  mkPolygon : List (ℚ × ℚ) → P
  area : P → ℚ
  contains : P → P → Bool
  difference : P → P → P
  is_valid : P → Bool
  isInside3D : P → Part3DData W → Bool

/-- Membership test for an insertion-ordered dict. -/
def containsKey {α : Type} (d : List (String × α)) (k : String) : Bool :=
  d.any (fun e => decide (e.1 = k))

/-- `d[k]` as an `Option` (Python raises `KeyError` on `none`). -/
def dictGet {α : Type} (d : List (String × α)) (k : String) : Option α :=
  (d.find? (fun e => decide (e.1 = k))).map Prod.snd

/-- `d[k] = v`: replace in place if the key exists, else append. -/
def dictSet {α : Type} (d : List (String × α)) (k : String) (v : α) : List (String × α) :=
  if containsKey d k then d.map (fun e => if e.1 = k then (k, v) else e)
  else d ++ [(k, v)]

/-- `del d[k]`. -/
def dictErase {α : Type} (d : List (String × α)) (k : String) : List (String × α) :=
  d.filter (fun e => decide (e.1 ≠ k))

/-- `Geo2DData` (geometry.py 20-39): named parts, named edges, a build
order across both, and the length unit.  `P` and `E` abstract the shapely
`Polygon` and `LineString` payloads. -/
structure Geo2DData (P E : Type) where
  parts : List (String × P)
  edges : List (String × E)
  build_order : List String
  lunit : Option String
deriving DecidableEq, Repr

/-- `Geo2DData.__init__` (geometry.py 35-39); the Python default for
`lunit` is `"nm"`. -/
def Geo2DData.init (P E : Type) (lunit : Option String) : Geo2DData P E :=
  ⟨[], [], [], lunit⟩

/-- `Geo2DData.add_part` (geometry.py 41-64).  `valid` is shapely's
`part.is_valid`. -/
def Geo2DData.add_part {P E : Type} (valid : P → Bool) (g : Geo2DData P E)
    (part_name : String) (part : P) (overwrite : Bool) : Except String (Geo2DData P E) :=
  if !valid part then
    .error ("Part " ++ part_name ++ " is not a valid polygon.")
  else if containsKey g.parts part_name && !overwrite then
    .error ("Attempted to overwrite the part " ++ part_name ++ ".")
  else
    .ok { g with parts := dictSet g.parts part_name part,
                 build_order := g.build_order ++ [part_name] }

/-- `Geo2DData.remove_part` (geometry.py 66-93). -/
def Geo2DData.remove_part {P E : Type} (g : Geo2DData P E) (part_name : String)
    (ignore_if_absent : Bool) : Except String (Geo2DData P E) :=
  if containsKey g.parts part_name then
    .ok { g with parts := dictErase g.parts part_name,
                 build_order := g.build_order.erase part_name }
  else if ignore_if_absent then .ok g
  else .error ("Attempted to remove the part " ++ part_name ++ ", which does not exist.")

/-- `Geo2DData.add_edge` (geometry.py 95-116); note there is no validity
check for edges. -/
def Geo2DData.add_edge {P E : Type} (g : Geo2DData P E) (edge_name : String) (edge : E)
    (overwrite : Bool) : Except String (Geo2DData P E) :=
  if containsKey g.edges edge_name && !overwrite then
    .error ("Attempted to overwrite the edge " ++ edge_name ++ ".")
  else
    .ok { g with edges := dictSet g.edges edge_name edge,
                 build_order := g.build_order ++ [edge_name] }

/-- `Geo2DData.remove_edge` (geometry.py 118-145). -/
def Geo2DData.remove_edge {P E : Type} (g : Geo2DData P E) (edge_name : String)
    (ignore_if_absent : Bool) : Except String (Geo2DData P E) :=
  if containsKey g.edges edge_name then
    .ok { g with edges := dictErase g.edges edge_name,
                 build_order := g.build_order.erase edge_name }
  else if ignore_if_absent then .ok g
  else .error ("Attempted to remove the edge " ++ edge_name ++ ", which does not exist.")

/-- One call to a mutating `Geo2DData` method, with its flag. -/
inductive GeoOp (P E : Type) where
  | addPart (name : String) (part : P) (overwrite : Bool)
  | removePart (name : String) (ignore_if_absent : Bool)
  | addEdge (name : String) (edge : E) (overwrite : Bool)
  | removeEdge (name : String) (ignore_if_absent : Bool)
deriving DecidableEq, Repr

/-- Dispatch one `GeoOp` to the corresponding method. -/
def applyOp {P E : Type} (valid : P → Bool) (g : Geo2DData P E) :
    GeoOp P E → Except String (Geo2DData P E)
  | .addPart n p ov => g.add_part valid n p ov
  | .removePart n ig => g.remove_part n ig
  | .addEdge n e ov => g.add_edge n e ov
  | .removeEdge n ig => g.remove_edge n ig

/-- State after one call; a raised exception leaves the object unchanged
(every method raises before mutating). -/
def stepKeep {P E : Type} (valid : P → Bool) (g : Geo2DData P E) (op : GeoOp P E) :
    Geo2DData P E :=
  match applyOp valid g op with
  | .ok g2 => g2
  | .error _ => g

/-- Run a sequence of method calls, keeping the state across raised
exceptions. -/
def runOps {P E : Type} (valid : P → Bool) : Geo2DData P E → List (GeoOp P E) → Geo2DData P E
  | g, [] => g
  | g, op :: ops => runOps valid (stepKeep valid g op) ops

/-- An add is safe when its name is fresh across both maps (neither an
existing part nor an existing edge); removals are always safe. -/
def safeOp {P E : Type} (g : Geo2DData P E) : GeoOp P E → Prop
  | .addPart n _ _ => containsKey g.parts n = false ∧ containsKey g.edges n = false
  | .addEdge n _ _ => containsKey g.parts n = false ∧ containsKey g.edges n = false
  | .removePart _ _ => True
  | .removeEdge _ _ => True

/-- Every call in the sequence is safe in the state where it runs. -/
def SafeOps {P E : Type} (valid : P → Bool) : Geo2DData P E → List (GeoOp P E) → Prop
  | _, [] => True
  | g, op :: ops => safeOp g op ∧ SafeOps valid (stepKeep valid g op) ops

/-- One stored cross-section (the values of the `xsecs` dict, geometry.py
412-416): axis, signed distance, and the flat fragment-name → 3D points
mapping. -/
structure Xsec where
  axis : Vec3
  distance : ℚ
  polygons : List (String × List Vec3)
deriving DecidableEq, Repr

/-- `Geo3DData` (geometry.py 300-325), restricted to the attributes the
cross-section extraction reads: `build_order`, `parts` and `xsecs` (the
serialized document, mesh and materials attributes are never consulted by
the claims under verification). -/
structure Geo3DData (W : Type) where
  build_order : List String
  parts : List (String × Part3DData W)
  xsecs : List (String × Xsec)
deriving DecidableEq, Repr

/-- Python `str.startswith`, on the character data. -/
def startswith (s pfx : String) : Bool :=
  pfx.data.isPrefixOf s.data

/-- The fragment collection for one part (geometry.py 590-596): fragments
whose name starts with `part_name + "_"`, each projected into plane
coordinates by `_project` and tagged with the fragment's original name
(`poly.name = name`). -/
def projectFragments {P : Type} (mk : List (ℚ × ℚ) → P) (x_new : Vec3) (distance : ℚ)
    (frags : List (String × List Vec3)) (part_name : String) : List (String × P) :=
  (frags.filter (fun nv => startswith nv.1 (part_name ++ "_"))).map
    (fun nv => (nv.1, mk (nv.2.map (proj_plane x_new distance))))

/-- The partition loop of `xsec_to_2d` (geometry.py 585-601): walk
`build_order`, collect each part's projected fragments, and classify the
part as virtual or physical by its `domain_type` (the `self.parts`
lookup raises `KeyError` when the name is missing). -/
def partitionLoop {P W : Type} (ops : ShapelyOps P W) (geo : Geo3DData W) (x_new : Vec3)
    (distance : ℚ) (frags : List (String × List Vec3)) :
    List String → List (String × List (String × P)) → List (String × List (String × P)) →
    Except String (List (String × List (String × P)) × List (String × List (String × P)))
  | [], phys, virt => .ok (phys, virt)
  | part_name :: rest, phys, virt =>
    let polygons := projectFragments ops.mkPolygon x_new distance frags part_name
    if polygons.isEmpty then partitionLoop ops geo x_new distance frags rest phys virt
    else
      match dictGet geo.parts part_name with
      | none => .error ("KeyError: " ++ part_name)
      | some part =>
        if part.domain_type = some "virtual" then
          partitionLoop ops geo x_new distance frags rest phys (dictSet virt part_name polygons)
        else
          partitionLoop ops geo x_new distance frags rest (dictSet phys part_name polygons) virt

/-- Steps 1-3 of `xsec_to_2d`: look up the cross-section (KeyError when the
name is unknown) and partition its fragments. -/
def xsecPartition {P W : Type} (ops : ShapelyOps P W) (geo : Geo3DData W) (xsec_name : String) :
    Except String (List (String × List (String × P)) × List (String × List (String × P))) :=
  match dictGet geo.xsecs xsec_name with
  | none => .error ("KeyError: " ++ xsec_name)
  | some xsec => partitionLoop ops geo xsec.axis xsec.distance xsec.polygons geo.build_order [] []

/-- `graph[k].append(c)` on the association-list graph: extend the first
entry with key `k` (a no-op when the key is absent, which the source never
hits because the graph is seeded with every polygon name). -/
def updateFirst {P : Type} :
    List (String × List (String × P)) → String → (String × P) → List (String × List (String × P))
  | [], _, _ => []
  | e :: es, k, c => if e.1 = k then (e.1, e.2 ++ [c]) :: es else e :: updateFirst es k c

/-- `cont_graph[k]` (defaulting to `[]`, which the source never needs). -/
def childrenOf {P : Type} (g : List (String × List (String × P))) (k : String) :
    List (String × P) :=
  (dictGet g k).getD []

/-- The scan of `_build_containment_graph` (geometry.py 624-630): for each
polygon in ascending-area order, find the first strictly-later (hence
larger) polygon containing it and record the child under that container. -/
def cgLoop {P W : Type} (ops : ShapelyOps P W) :
    List (String × P) → List (String × List (String × P)) → List (String × List (String × P))
  | [], g => g
  | p :: rest, g =>
    match rest.find? (fun q => ops.contains q.2 p.2) with
    | none => cgLoop ops rest g
    | some q => cgLoop ops rest (updateFirst g q.1 p)

/-- `_build_containment_graph` (geometry.py 603-631): sort by area
(Python's `sorted` is stable; so is `List.mergeSort`), seed the graph with
an empty child list per polygon name, then run the scan. -/
def build_containment_graph {P W : Type} (ops : ShapelyOps P W) (poly_list : List (String × P)) :
    List (String × List (String × P)) :=
  let poly_by_area := poly_list.mergeSort (fun a b => decide (ops.area a.2 ≤ ops.area b.2))
  cgLoop ops poly_by_area (poly_list.map (fun p => (p.1, ([] : List (String × P)))))

/-- The (child, container) pairs produced by the scan of
`_build_containment_graph`, in scan order: each polygon of the
ascending-area list paired with the first strictly-later polygon that
contains it, when one exists.  (Proof-side restatement of the appends
performed by `cgLoop`.) -/
def assigned {P W : Type} (ops : ShapelyOps P W) :
    List (String × P) → List ((String × P) × (String × P))
  | [] => []
  | p :: rest =>
    match rest.find? (fun q => ops.contains q.2 p.2) with
    | none => assigned ops rest
    | some q => (p, q) :: assigned ops rest

/-- The body of the physical-part loop that assembles `polys_to_add`
(geometry.py 677-681): subtract every immediate child from the polygon,
then keep the result only when `_is_inside` reports the representative
point inside the owning 3D part (`self.parts[name]` raises `KeyError` when
absent). -/
def polysToAdd {P W : Type} (ops : ShapelyOps P W) (geo : Geo3DData W)
    (cont_graph : List (String × List (String × P))) (name : String) :
    List (String × P) → Except String (List P)
  | [] => .ok []
  | p :: rest =>
    let poly := (childrenOf cont_graph p.1).foldl (fun acc c => ops.difference acc c.2) p.2
    match dictGet geo.parts name with
    | none => .error ("KeyError: " ++ name)
    | some part =>
      match polysToAdd ops geo cont_graph name rest with
      | .error e => .error e
      | .ok tail => .ok (if ops.isInside3D poly part then poly :: tail else tail)

/-- The indexed `add_part` loop (geometry.py 687-688 and 695-696):
`geo_2d.add_part(f"{name}_{i}", poly)` with positional indices. -/
def addIndexed {P : Type} (valid : P → Bool) :
    Geo2DData P Unit → String → Nat → List P → Except String (Geo2DData P Unit)
  | g, _, _, [] => .ok g
  | g, name, i, p :: rest =>
    match Geo2DData.add_part valid g (name ++ "_" ++ toString i) p false with
    | .error e => .error e
    | .ok g2 => addIndexed valid g2 name (i + 1) rest

/-- The one-vs-many naming rule (geometry.py 682-688): no surviving polygon
adds nothing; exactly one is added under the part's own name; several are
added under `{name}_{index}`. -/
def addNamed {P : Type} (valid : P → Bool) (g : Geo2DData P Unit) (name : String) :
    List P → Except String (Geo2DData P Unit)
  | [] => .ok g
  | [p] => Geo2DData.add_part valid g name p false
  | p1 :: p2 :: rest => addIndexed valid g name 0 (p1 :: p2 :: rest)

/-- The physical-domain loop of `xsec_to_2d` (geometry.py 671-688). -/
def physLoop {P W : Type} (ops : ShapelyOps P W) (geo : Geo3DData W) :
    List (String × List (String × P)) → Geo2DData P Unit → Except String (Geo2DData P Unit)
  | [], g => .ok g
  | (name, poly_list) :: rest, g =>
    let cont_graph := build_containment_graph ops poly_list
    match polysToAdd ops geo cont_graph name poly_list with
    | .error e => .error e
    | .ok polys_to_add =>
      match addNamed ops.is_valid g name polys_to_add with
      | .error e => .error e
      | .ok g2 => physLoop ops geo rest g2

/-- The virtual-part loop of `xsec_to_2d` (geometry.py 690-696): fragments
are added as is, with the same one-vs-many naming rule. -/
def virtLoop {P : Type} (valid : P → Bool) :
    List (String × List (String × P)) → Geo2DData P Unit → Except String (Geo2DData P Unit)
  | [], g => .ok g
  | (name, poly_list) :: rest, g =>
    match addNamed valid g name (poly_list.map Prod.snd) with
    | .error e => .error e
    | .ok g2 => virtLoop valid rest g2

/-- `Geo3DData.xsec_to_2d` (geometry.py 516-701).  The second component of
the result records whether the FreeCAD document opened by
`self.get_data("fcdoc")` (line 670) was still open when control left the
function: the source only reaches `FreeCAD.closeDocument("instance")`
(line 700) on the success path, so any exception raised after line 670
escapes with the document open. -/
def xsec_to_2d {P W : Type} (ops : ShapelyOps P W) (geo : Geo3DData W) (xsec_name : String)
    (lunit : Option String) : Except String (Geo2DData P Unit) × Bool :=
  match xsecPartition ops geo xsec_name with
  | .error e => (.error e, false)
  | .ok (part_polygons, virtual_part_polygons) =>
    let geo_2d : Geo2DData P Unit := Geo2DData.init P Unit (some "nm")
    match physLoop ops geo part_polygons geo_2d with
    | .error e => (.error e, true)
    | .ok g1 =>
      match virtLoop ops.is_valid virtual_part_polygons g1 with
      | .error e => (.error e, true)
      | .ok g2 => (.ok { g2 with lunit := lunit }, false)

/-- Specification-side rendering of the indexed naming rule: entries
`(name_i, p)` with consecutive positional indices. -/
def indexedNames {P : Type} (name : String) : Nat → List P → List (String × P)
  | _, [] => []
  | i, p :: ps => (name ++ "_" ++ toString i, p) :: indexedNames name (i + 1) ps

/-- Specification-side rendering of the one-vs-many naming rule of spec
§4.5 steps 4-5: zero polygons contribute nothing, one is filed under the
part's own name, several under `{name}_{index}` in production order. -/
def namedOutputs {P : Type} (name : String) : List P → List (String × P)
  | [] => []
  | [p] => [(name, p)]
  | p1 :: p2 :: rest => indexedNames name 0 (p1 :: p2 :: rest)

/-- The polygons of one physical part surviving cavity resolution, in
production order: each fragment minus its immediate children, kept when
the 3D membership test accepts it. -/
def survivors {P W : Type} (ops : ShapelyOps P W) (part : Part3DData W)
    (poly_list : List (String × P)) : List P :=
  let g := build_containment_graph ops poly_list
  (poly_list.map
      (fun pp => (childrenOf g pp.1).foldl (fun acc c => ops.difference acc c.2) pp.2)).filter
    (fun q => ops.isInside3D q part)

/-- The part entries contributed by the physical groups, per the §4.5
naming rule. -/
def specPhys {P W : Type} (ops : ShapelyOps P W) (geo : Geo3DData W)
    (groups : List (String × List (String × P))) : List (String × P) :=
  groups.flatMap (fun ng =>
    match dictGet geo.parts ng.1 with
    | some part => namedOutputs ng.1 (survivors ops part ng.2)
    | none => [])

/-- The part entries contributed by the virtual groups: the projected
fragments unchanged, per the §4.5 naming rule. -/
def specVirt {P : Type} (groups : List (String × List (String × P))) : List (String × P) :=
  groups.flatMap (fun ng => namedOutputs ng.1 (ng.2.map Prod.snd))

/-- The cavity subtraction applied to one polygon (geometry.py 677-679):
`for interior_poly in cont_graph[poly.name]: poly = poly.difference(interior_poly)`,
with shapely polygons modelled as subsets of the plane and shapely
`difference` as set difference. -/
def resolve_cavities (poly : Set (ℝ × ℝ)) (children : List (Set (ℝ × ℝ))) : Set (ℝ × ℝ) :=
  children.foldl (fun acc c => acc \ c) poly

/-- A concrete polygon payload (its projected vertex list) with trivially
permissive geometric oracles, used to exercise the pipeline on concrete
inputs. -/
def listOps : ShapelyOps (List (ℚ × ℚ)) Unit :=
  { mkPolygon := id
    area := fun _ => 0
    contains := fun _ _ => false
    difference := fun a _ => a
    is_valid := fun _ => true
    isInside3D := fun _ _ => true }

/-- `listOps` with shapely validity always failing: every `add_part` in the
output-assembly phase raises, exercising the error exit of `xsec_to_2d`. -/
def invalidOps : ShapelyOps (List (ℚ × ℚ)) Unit :=
  { mkPolygon := id
    area := fun _ => 0
    contains := fun _ _ => false
    difference := fun a _ => a
    is_valid := fun _ => false
    isInside3D := fun _ _ => true }

/-- A concrete metal-gate part named "A". -/
def partA : Part3DData Unit :=
  ⟨"A", none, "extrude", some "metal_gate", none, 0, none, none, none, none, none, none,
    none, none, some [], none, none, none, none, none, none, none, none, none, none, none⟩

/-- A concrete metal-gate part named "A_1" (its name extends "A" by the
separator, triggering the prefix-matching ambiguity). -/
def partA1 : Part3DData Unit :=
  ⟨"A_1", none, "extrude", some "metal_gate", none, 0, none, none, none, none, none, none,
    none, none, some [], none, none, none, none, none, none, none, none, none, none, none⟩

/-- A one-part geometry with a single cross-section fragment "A_0". -/
def okGeo : Geo3DData Unit :=
  { build_order := ["A"]
    parts := [("A", partA)]
    xsecs := [("cut", { axis := ⟨1, 0, 0⟩, distance := 0, polygons := [("A_0", [])] })] }

/-- A geometry holding parts "A" and "A_1" and one fragment "A_1_0", whose
name prefix-matches both parts. -/
def prefixGeo : Geo3DData Unit :=
  { build_order := ["A", "A_1"]
    parts := [("A", partA), ("A_1", partA1)]
    xsecs := [("cut", { axis := ⟨1, 0, 0⟩, distance := 0, polygons := [("A_1_0", [])] })] }

/-- A concrete virtual part named "V". -/
def partV : Part3DData Unit :=
  ⟨"V", none, "extrude", some "virtual", none, 0, none, none, none, none, none, none,
    none, none, some [], none, none, none, none, none, none, none, none, none, none, none⟩

/-- A geometry holding the physical (metal-gate) part "A" with one
fragment and the virtual part "V" with two fragments, so a cross-section
runs both the physical and the virtual loop, the latter with the indexed
naming rule. -/
def virtGeo : Geo3DData Unit :=
  { build_order := ["A", "V"]
    parts := [("A", partA), ("V", partV)]
    xsecs := [("cut",
      ⟨⟨1, 0, 0⟩, 0, [("A_0", []), ("V_0", []), ("V_1", [])]⟩)] }

/-- Polygon oracles over `ℚ` payloads: the payload is its own area and
containment is strict numeric dominance, a sound instance of the geometric
facts (containment implies strictly larger area). -/
def ratOps : ShapelyOps ℚ Unit :=
  { mkPolygon := fun _ => 0
    area := fun q => q
    contains := fun a b => decide (b < a)
    difference := fun a _ => a
    is_valid := fun _ => true
    isInside3D := fun _ _ => true }

/-- A nesting chain: "A" contains "B" and "C", "B" contains "C". -/
def chainPolys : List (String × ℚ) := [("A", 3), ("B", 2), ("C", 1)]

/-! ## Theorems -/

theorem Vec3.ext_components {a b : Vec3} (h1 : a.x = b.x) (h2 : a.y = b.y)
    (h3 : a.z = b.z) : a = b := by
  cases a; cases b; simp_all

theorem Vec3.add_def (a b : Vec3) : a + b = ⟨a.x + b.x, a.y + b.y, a.z + b.z⟩ := rfl

theorem Vec3.sub_def (a b : Vec3) : a - b = ⟨a.x - b.x, a.y - b.y, a.z - b.z⟩ := rfl

theorem Vec3.neg_def (a : Vec3) : -a = ⟨-a.x, -a.y, -a.z⟩ := rfl

theorem Vec3.smul_def (c : ℚ) (a : Vec3) : c • a = ⟨c * a.x, c * a.y, c * a.z⟩ := rfl

/-- **C1, counterexample.**  The claim asserts the projection round trip for
*every* unit cut-axis vector.  For the unit axis `(3/5, 4/5, 0)` the seed
world axis chosen by the construction (here `[1,0,0]`) is not orthogonal to
the axis, so the derived in-plane frame is orthogonal but not normalized,
and the round trip scales in-plane components by the squared frame length:
the point `(16/25, -12/25, 0)`, which lies in the cutting plane at distance
`0`, comes back as `(256/625, -192/625, 0)`. -/
theorem inverse_project_roundtrip_cex :
    dot ⟨3/5, 4/5, 0⟩ ⟨3/5, 4/5, 0⟩ = 1 ∧
    dot ⟨16/25, -12/25, 0⟩ ⟨3/5, 4/5, 0⟩ = 0 ∧
    inverse_project ⟨3/5, 4/5, 0⟩ 0 (proj_plane ⟨3/5, 4/5, 0⟩ 0 ⟨16/25, -12/25, 0⟩)
      ≠ (⟨16/25, -12/25, 0⟩ : Vec3) := by
  refine ⟨by norm_num [dot], by norm_num [dot], ?_⟩
  norm_num [inverse_project, proj_plane, frame_y, frame_z, seedAxis, np_argmax_abs,
    dot, cross, Vec3.add_def, Vec3.sub_def, Vec3.neg_def, Vec3.smul_def, Vec3.mk.injEq, abs]

/-- **C1, amended.**  For a unit cut axis `x`, a signed distance `d` and a
point `p` in the cutting plane (`p · x = d`), projecting and unprojecting
reproduces `p` *provided the seed world axis picked at construction is
orthogonal to `x`* — which holds in particular whenever `x` is a standard
coordinate axis, the only shape of axis the source's frame construction is
designed around. -/
theorem inverse_project_roundtrip (x_new : Vec3) (d : ℚ) (p : Vec3)
    (hunit : dot x_new x_new = 1)
    (hseed : dot (seedAxis x_new) x_new = 0)
    (hplane : dot p x_new = d) :
    inverse_project x_new d (proj_plane x_new d p) = p := by
  obtain ⟨x0, x1, x2⟩ := x_new
  obtain ⟨p0, p1, p2⟩ := p
  simp only [dot] at hunit hplane
  by_cases h : np_argmax_abs ⟨x0, x1, x2⟩ = 0
  · have hs : seedAxis ⟨x0, x1, x2⟩ = ⟨0, 1, 0⟩ := by rw [seedAxis, if_pos h]
    rw [hs] at hseed
    simp only [dot] at hseed
    have hx1 : x1 = 0 := by linarith
    subst hx1
    simp only [inverse_project, proj_plane, frame_z, frame_y, hs, dot, cross,
      Vec3.add_def, Vec3.sub_def, Vec3.neg_def, Vec3.smul_def]
    split_ifs with hz
    · refine Vec3.ext_components ?_ ?_ ?_
      · linear_combination (-x0) * hplane + p0 * hunit
      · linear_combination
      · linear_combination (-x2) * hplane + p2 * hunit
    · refine Vec3.ext_components ?_ ?_ ?_
      · linear_combination (-x0) * hplane + p0 * hunit
      · linear_combination
      · linear_combination (-x2) * hplane + p2 * hunit
  · have hs : seedAxis ⟨x0, x1, x2⟩ = ⟨1, 0, 0⟩ := by rw [seedAxis, if_neg h]
    rw [hs] at hseed
    simp only [dot] at hseed
    have hx0 : x0 = 0 := by linarith
    subst hx0
    simp only [inverse_project, proj_plane, frame_z, frame_y, hs, dot, cross,
      Vec3.add_def, Vec3.sub_def, Vec3.neg_def, Vec3.smul_def]
    split_ifs with hz
    · refine Vec3.ext_components ?_ ?_ ?_
      · linear_combination
      · linear_combination (-x1) * hplane + p1 * hunit
      · linear_combination (-x2) * hplane + p2 * hunit
    · refine Vec3.ext_components ?_ ?_ ?_
      · linear_combination
      · linear_combination (-x1) * hplane + p1 * hunit
      · linear_combination (-x2) * hplane + p2 * hunit

/-- Witness for `inverse_project_roundtrip`: the default cut axis
`(1,0,0)` at distance `5`, with the in-plane point `(5,2,3)`. -/
theorem inverse_project_roundtrip_witness :
    dot ⟨1, 0, 0⟩ ⟨1, 0, 0⟩ = 1 ∧
    dot (seedAxis ⟨1, 0, 0⟩) ⟨1, 0, 0⟩ = 0 ∧
    dot ⟨5, 2, 3⟩ ⟨1, 0, 0⟩ = 5 ∧
    inverse_project ⟨1, 0, 0⟩ 5 (proj_plane ⟨1, 0, 0⟩ 5 ⟨5, 2, 3⟩) = ⟨5, 2, 3⟩ := by
  have h1 : dot ⟨1, 0, 0⟩ ⟨1, 0, 0⟩ = 1 := by norm_num [dot]
  have h2 : dot (seedAxis ⟨1, 0, 0⟩) ⟨1, 0, 0⟩ = 0 := by
    norm_num [seedAxis, np_argmax_abs, dot, abs]
  have h3 : dot ⟨5, 2, 3⟩ ⟨1, 0, 0⟩ = 5 := by norm_num [dot]
  exact ⟨h1, h2, h3, inverse_project_roundtrip ⟨1, 0, 0⟩ 5 ⟨5, 2, 3⟩ h1 h2 h3⟩

/-- **C9, counterexample.**  The claim says that on success all supplied
parameters are stored unchanged, but `__init__` stores
`[] if litho_base is None else litho_base`: supplying `litho_base = None`
(together with otherwise valid arguments) succeeds and stores the empty
list instead of the supplied `None`. -/
theorem part3d_litho_base_cex :
    ∃ p : Part3DData Unit,
      part3d_init Unit "a" none "extrude" (some "metal_gate") none 0 none none none none
        none none none none none none none none none none none none none = .ok p ∧
      p.litho_base ≠ none := by
  refine ⟨⟨"a", none, "extrude", some "metal_gate", none, 0, none, none, none, none, none,
    none, none, none, some [], none, none, none, none, none, none, none, none, none, none,
    none⟩, ?_, by simp⟩
  rfl

/-- **C9, amended.**  `Part3DData` construction fails iff the directive is
not one of the six valid directives, or the domain classification is not
one of the four valid ones, or `ns` is supplied while the domain is
neither semiconductor nor dielectric; on success every supplied parameter
is stored unchanged, *except* that a `litho_base` of `None` is stored as
the empty list (and the serial/built attributes start as `None`). -/
theorem part3d_init_spec (W : Type) (label : String) (fc_name : Option String)
    (directive : String) (domain_type : Option String) (material : Option String) (z0 : ℚ)
    (thickness : Option ℚ) (target_wire : Option W) (shell_verts : Option (List Vec3))
    (depo_mode : Option String) (z_middle : Option ℚ) (t_in : Option ℚ) (t_out : Option ℚ)
    (layer_num : Option Int) (litho_base : Option (List String)) (mesh_max_size : Option ℚ)
    (mesh_min_size : Option ℚ) (mesh_growth_rate : Option ℚ)
    (mesh_scale_vector : Option (ℚ × ℚ × ℚ)) (boundary_condition : Option (List (String × ℚ)))
    (ns : Option ℚ) (phi_nl : Option ℚ) (ds : Option ℚ) :
    ((∃ p, part3d_init W label fc_name directive domain_type material z0 thickness
        target_wire shell_verts depo_mode z_middle t_in t_out layer_num litho_base
        mesh_max_size mesh_min_size mesh_growth_rate mesh_scale_vector boundary_condition
        ns phi_nl ds = .ok p) ↔
      (directive ∈ valid_directives ∧ domain_type ∈ valid_domain_types.map some ∧
        (ns ≠ none → domain_type ∈ ["semiconductor", "dielectric"].map some))) ∧
    (∀ p, part3d_init W label fc_name directive domain_type material z0 thickness
        target_wire shell_verts depo_mode z_middle t_in t_out layer_num litho_base
        mesh_max_size mesh_min_size mesh_growth_rate mesh_scale_vector boundary_condition
        ns phi_nl ds = .ok p →
      p = ⟨label, fc_name, directive, domain_type, material, z0, thickness, target_wire,
        shell_verts, depo_mode, z_middle, t_in, t_out, layer_num, some (litho_base.getD []),
        mesh_max_size, mesh_min_size, mesh_growth_rate, mesh_scale_vector,
        boundary_condition, ns, phi_nl, ds, none, none, none⟩) := by
  constructor
  · by_cases h1 : directive ∈ valid_directives
    · by_cases h2 : domain_type ∈ valid_domain_types.map some
      · by_cases h3 : domain_type ∉ ["semiconductor", "dielectric"].map some ∧ ns ≠ none
        · unfold part3d_init
          rw [if_neg (not_not_intro h1), if_neg (not_not_intro h2), if_pos h3]
          refine iff_of_false (by simp) ?_
          rintro ⟨-, -, hx⟩
          exact h3.1 (hx h3.2)
        · unfold part3d_init
          rw [if_neg (not_not_intro h1), if_neg (not_not_intro h2), if_neg h3]
          push_neg at h3
          refine iff_of_true ⟨_, rfl⟩ ⟨h1, h2, fun hns => ?_⟩
          by_cases hs : domain_type = some "semiconductor"
          · simp [hs]
          · by_cases hdi : domain_type = some "dielectric"
            · simp [hdi]
            · exact absurd (h3 (by simp [hs, hdi])) hns
      · unfold part3d_init
        rw [if_neg (not_not_intro h1), if_pos h2]
        exact iff_of_false (by simp) (fun h => h2 h.2.1)
    · unfold part3d_init
      rw [if_pos h1]
      exact iff_of_false (by simp) (fun h => h1 h.1)
  · intro p hp
    unfold part3d_init at hp
    split_ifs at hp
    simp only [Except.ok.injEq] at hp
    exact hp.symm

/-- Witness for `part3d_init_spec`: a valid semiconductor wire with a
volume charge density; construction succeeds and stores the arguments. -/
theorem part3d_init_spec_witness :
    ∃ p : Part3DData Unit,
      part3d_init Unit "w" none "wire" (some "semiconductor") none 0 none none none none
        none none none none (some ["b"]) none none none none none (some 1) none none =
        .ok p ∧
      p = ⟨"w", none, "wire", some "semiconductor", none, 0, none, none, none, none, none,
        none, none, none, some ["b"], none, none, none, none, none, some 1, none, none,
        none, none, none⟩ := by
  refine ⟨_, rfl, ?_⟩
  exact (part3d_init_spec Unit "w" none "wire" (some "semiconductor") none 0 none none
    none none none none none none (some ["b"]) none none none none none (some 1) none
    none).2 _ rfl

theorem containsKey_iff {α : Type} (d : List (String × α)) (k : String) :
    containsKey d k = true ↔ k ∈ d.map Prod.fst := by
  simp [containsKey, List.any_eq_true, List.mem_map]

theorem containsKey_false_iff {α : Type} (d : List (String × α)) (k : String) :
    containsKey d k = false ↔ k ∉ d.map Prod.fst := by
  constructor
  · intro h hmem
    have htrue := (containsKey_iff d k).mpr hmem
    rw [h] at htrue
    exact Bool.noConfusion htrue
  · intro h
    by_cases hc : containsKey d k = true
    · exact absurd ((containsKey_iff d k).mp hc) h
    · simpa using hc

theorem dictSet_absent {α : Type} (d : List (String × α)) (k : String) (v : α)
    (h : containsKey d k = false) : dictSet d k v = d ++ [(k, v)] := by
  simp [dictSet, h]

theorem keys_dictErase {α : Type} (d : List (String × α)) (k : String)
    (hnd : (d.map Prod.fst).Nodup) :
    (dictErase d k).map Prod.fst = (d.map Prod.fst).erase k := by
  induction d with
  | nil => rfl
  | cons e t ih =>
    simp only [List.map_cons, List.nodup_cons] at hnd
    by_cases hek : e.1 = k
    · have ht : dictErase t k = t := by
        refine List.filter_eq_self.mpr (fun a ha => ?_)
        simp only [decide_eq_true_eq]
        intro hak
        apply hnd.1
        have hea : e.1 = a.1 := by rw [hek, hak]
        exact hea ▸ List.mem_map_of_mem Prod.fst ha
      have h1 : dictErase (e :: t) k = dictErase t k := by
        simp [dictErase, List.filter_cons, hek]
      rw [h1, ht, List.map_cons, List.erase_cons, if_pos (show (e.1 == k) = true by simp [hek])]
    · have h1 : dictErase (e :: t) k = e :: dictErase t k := by
        simp [dictErase, List.filter_cons, hek]
      rw [h1, List.map_cons, List.map_cons, List.erase_cons,
        if_neg (show ¬(e.1 == k) = true by simp [hek]), ih hnd.2]

/-- **C7, counterexample.**  The claim allows any overwrite flags, but
`add_part` with `overwrite=True` on an existing name appends the name to
`build_order` a second time while the parts dict keeps one entry: after
`add_part("a", p); add_part("a", p, overwrite=True)` the build order has
length 2 while there is 1 part and 0 edges. -/
theorem geo2d_invariant_cex :
    ¬ ((runOps (fun _ => true) (Geo2DData.init Unit Unit (some "nm"))
          [GeoOp.addPart "a" () false, GeoOp.addPart "a" () true]).build_order.length =
        (runOps (fun _ => true) (Geo2DData.init Unit Unit (some "nm"))
          [GeoOp.addPart "a" () false, GeoOp.addPart "a" () true]).parts.length +
        (runOps (fun _ => true) (Geo2DData.init Unit Unit (some "nm"))
          [GeoOp.addPart "a" () false, GeoOp.addPart "a" () true]).edges.length) := by
  decide

theorem geo2d_step_inv {P E : Type} (valid : P → Bool) (g : Geo2DData P E) (op : GeoOp P E)
    (hI : g.build_order.Perm (g.parts.map Prod.fst ++ g.edges.map Prod.fst) ∧
      (g.parts.map Prod.fst ++ g.edges.map Prod.fst).Nodup)
    (hs : safeOp g op) :
    (stepKeep valid g op).build_order.Perm
        ((stepKeep valid g op).parts.map Prod.fst ++ (stepKeep valid g op).edges.map Prod.fst) ∧
      ((stepKeep valid g op).parts.map Prod.fst ++ (stepKeep valid g op).edges.map Prod.fst).Nodup := by
  obtain ⟨hperm, hnd⟩ := hI
  cases op with
  | addPart n p ov =>
    obtain ⟨hp, he⟩ := hs
    by_cases hv : valid p = true
    · have hstep : stepKeep valid g (GeoOp.addPart n p ov) =
          { g with parts := g.parts ++ [(n, p)], build_order := g.build_order ++ [n] } := by
        simp [stepKeep, applyOp, Geo2DData.add_part, hv, hp, dictSet_absent g.parts n p hp]
      rw [hstep]
      constructor
      · simp only [List.map_append, List.map_cons, List.map_nil]
        refine (hperm.append_right [n]).trans ?_
        rw [List.append_assoc, List.append_assoc]
        exact List.perm_append_comm.append_left _
      · simp only [List.map_append, List.map_cons, List.map_nil]
        have hmid : (g.parts.map Prod.fst ++ [n] ++ g.edges.map Prod.fst).Perm
            (n :: (g.parts.map Prod.fst ++ g.edges.map Prod.fst)) := by
          rw [List.append_assoc, List.singleton_append]
          exact List.perm_middle
        refine hmid.nodup_iff.mpr (List.nodup_cons.mpr ⟨?_, hnd⟩)
        rw [List.mem_append]
        rintro (hmem | hmem)
        · exact (containsKey_false_iff g.parts n).mp hp hmem
        · exact (containsKey_false_iff g.edges n).mp he hmem
    · have hstep : stepKeep valid g (GeoOp.addPart n p ov) = g := by
        simp [stepKeep, applyOp, Geo2DData.add_part, hv]
      rw [hstep]; exact ⟨hperm, hnd⟩
  | addEdge n e ov =>
    obtain ⟨hp, he⟩ := hs
    have hstep : stepKeep valid g (GeoOp.addEdge n e ov) =
        { g with edges := g.edges ++ [(n, e)], build_order := g.build_order ++ [n] } := by
      simp [stepKeep, applyOp, Geo2DData.add_edge, he, dictSet_absent g.edges n e he]
    rw [hstep]
    constructor
    · simp only [List.map_append, List.map_cons, List.map_nil]
      rw [← List.append_assoc]
      exact hperm.append_right [n]
    · simp only [List.map_append, List.map_cons, List.map_nil]
      rw [← List.append_assoc]
      have hmid : (g.parts.map Prod.fst ++ g.edges.map Prod.fst ++ [n]).Perm
          (n :: (g.parts.map Prod.fst ++ g.edges.map Prod.fst)) := by
        simpa using
          (@List.perm_middle String n (g.parts.map Prod.fst ++ g.edges.map Prod.fst) [])
      refine hmid.nodup_iff.mpr (List.nodup_cons.mpr ⟨?_, hnd⟩)
      rw [List.mem_append]
      rintro (hmem | hmem)
      · exact (containsKey_false_iff g.parts n).mp hp hmem
      · exact (containsKey_false_iff g.edges n).mp he hmem
  | removePart n ig =>
    by_cases hin : containsKey g.parts n = true
    · have hstep : stepKeep valid g (GeoOp.removePart n ig) =
          { g with parts := dictErase g.parts n, build_order := g.build_order.erase n } := by
        simp [stepKeep, applyOp, Geo2DData.remove_part, hin]
      rw [hstep]
      have hndp : (g.parts.map Prod.fst).Nodup := (List.nodup_append.mp hnd).1
      have hkeys : (dictErase g.parts n).map Prod.fst = (g.parts.map Prod.fst).erase n :=
        keys_dictErase g.parts n hndp
      have hmem : n ∈ g.parts.map Prod.fst := (containsKey_iff g.parts n).mp hin
      constructor
      · rw [hkeys, ← List.erase_append_left (g.edges.map Prod.fst) hmem]
        exact hperm.erase n
      · rw [hkeys]
        exact ((List.erase_sublist n (g.parts.map Prod.fst)).append_right _).nodup hnd
    · have hstep : stepKeep valid g (GeoOp.removePart n ig) = g := by
        by_cases hig : ig = true
        · simp [stepKeep, applyOp, Geo2DData.remove_part, hin, hig]
        · simp [stepKeep, applyOp, Geo2DData.remove_part, hin, hig]
      rw [hstep]; exact ⟨hperm, hnd⟩
  | removeEdge n ig =>
    by_cases hin : containsKey g.edges n = true
    · have hstep : stepKeep valid g (GeoOp.removeEdge n ig) =
          { g with edges := dictErase g.edges n, build_order := g.build_order.erase n } := by
        simp [stepKeep, applyOp, Geo2DData.remove_edge, hin]
      rw [hstep]
      have hnde : (g.edges.map Prod.fst).Nodup := (List.nodup_append.mp hnd).2.1
      have hkeys : (dictErase g.edges n).map Prod.fst = (g.edges.map Prod.fst).erase n :=
        keys_dictErase g.edges n hnde
      have hmem : n ∈ g.edges.map Prod.fst := (containsKey_iff g.edges n).mp hin
      have hnot : n ∉ g.parts.map Prod.fst := by
        intro hc
        exact (List.disjoint_of_nodup_append hnd) hc hmem
      constructor
      · rw [hkeys, ← List.erase_append_right (g.edges.map Prod.fst) hnot]
        exact hperm.erase n
      · rw [hkeys]
        exact ((List.erase_sublist n (g.edges.map Prod.fst)).append_left _).nodup hnd
    · have hstep : stepKeep valid g (GeoOp.removeEdge n ig) = g := by
        by_cases hig : ig = true
        · simp [stepKeep, applyOp, Geo2DData.remove_edge, hin, hig]
        · simp [stepKeep, applyOp, Geo2DData.remove_edge, hin, hig]
      rw [hstep]; exact ⟨hperm, hnd⟩

theorem geo2d_run_inv {P E : Type} (valid : P → Bool) (ops : List (GeoOp P E))
    (g : Geo2DData P E)
    (hI : g.build_order.Perm (g.parts.map Prod.fst ++ g.edges.map Prod.fst) ∧
      (g.parts.map Prod.fst ++ g.edges.map Prod.fst).Nodup)
    (hs : SafeOps valid g ops) :
    (runOps valid g ops).build_order.Perm
        ((runOps valid g ops).parts.map Prod.fst ++ (runOps valid g ops).edges.map Prod.fst) ∧
      ((runOps valid g ops).parts.map Prod.fst ++ (runOps valid g ops).edges.map Prod.fst).Nodup := by
  induction ops generalizing g with
  | nil => exact hI
  | cons op rest ih =>
    obtain ⟨h1, h2⟩ := hs
    exact ih (stepKeep valid g op) (geo2d_step_inv valid g op hI h1) h2

/-- **C7, amended.**  Every sequence of `Geo2DData` operations *in which
each add uses a name that is fresh across both maps at the moment it runs*
(so `overwrite=True` never actually replaces an entry, and no part is
added under an existing edge name or vice versa; removals and ignore flags
are unrestricted) preserves the invariant: entity names are unique across
insertion, the length of `build_order` equals the number of parts plus
edges, and a name absent from both maps (in particular one just removed)
is absent from `build_order`. -/
theorem geo2d_invariant {P E : Type} (valid : P → Bool) (lunit : Option String)
    (ops : List (GeoOp P E))
    (hs : SafeOps valid (Geo2DData.init P E lunit) ops) :
    ((runOps valid (Geo2DData.init P E lunit) ops).parts.map Prod.fst ++
        (runOps valid (Geo2DData.init P E lunit) ops).edges.map Prod.fst).Nodup ∧
      (runOps valid (Geo2DData.init P E lunit) ops).build_order.length =
        (runOps valid (Geo2DData.init P E lunit) ops).parts.length +
          (runOps valid (Geo2DData.init P E lunit) ops).edges.length ∧
      ∀ n, n ∉ (runOps valid (Geo2DData.init P E lunit) ops).parts.map Prod.fst →
        n ∉ (runOps valid (Geo2DData.init P E lunit) ops).edges.map Prod.fst →
        n ∉ (runOps valid (Geo2DData.init P E lunit) ops).build_order := by
  have h0 : (Geo2DData.init P E lunit).build_order.Perm
      ((Geo2DData.init P E lunit).parts.map Prod.fst ++
        (Geo2DData.init P E lunit).edges.map Prod.fst) ∧
      ((Geo2DData.init P E lunit).parts.map Prod.fst ++
        (Geo2DData.init P E lunit).edges.map Prod.fst).Nodup := by
    simp [Geo2DData.init]
  obtain ⟨hperm, hnd⟩ := geo2d_run_inv valid ops (Geo2DData.init P E lunit) h0 hs
  refine ⟨hnd, ?_, ?_⟩
  · simpa using hperm.length_eq
  · intro n hn1 hn2 hmem
    rcases List.mem_append.mp (hperm.mem_iff.mp hmem) with h | h
    · exact hn1 h
    · exact hn2 h

/-- Witness for `geo2d_invariant`: add a part, add an edge under a fresh
name, then remove the part. -/
theorem geo2d_invariant_witness :
    SafeOps (fun _ => true) (Geo2DData.init Unit Unit (some "nm"))
        [GeoOp.addPart "p1" () false, GeoOp.addEdge "e1" () false,
          GeoOp.removePart "p1" false] ∧
      ((runOps (fun _ => true) (Geo2DData.init Unit Unit (some "nm"))
          [GeoOp.addPart "p1" () false, GeoOp.addEdge "e1" () false,
            GeoOp.removePart "p1" false]).parts.map Prod.fst ++
        (runOps (fun _ => true) (Geo2DData.init Unit Unit (some "nm"))
          [GeoOp.addPart "p1" () false, GeoOp.addEdge "e1" () false,
            GeoOp.removePart "p1" false]).edges.map Prod.fst).Nodup ∧
      (runOps (fun _ => true) (Geo2DData.init Unit Unit (some "nm"))
          [GeoOp.addPart "p1" () false, GeoOp.addEdge "e1" () false,
            GeoOp.removePart "p1" false]).build_order.length =
        (runOps (fun _ => true) (Geo2DData.init Unit Unit (some "nm"))
          [GeoOp.addPart "p1" () false, GeoOp.addEdge "e1" () false,
            GeoOp.removePart "p1" false]).parts.length +
          (runOps (fun _ => true) (Geo2DData.init Unit Unit (some "nm"))
          [GeoOp.addPart "p1" () false, GeoOp.addEdge "e1" () false,
            GeoOp.removePart "p1" false]).edges.length ∧
      ∀ n, n ∉ (runOps (fun _ => true) (Geo2DData.init Unit Unit (some "nm"))
          [GeoOp.addPart "p1" () false, GeoOp.addEdge "e1" () false,
            GeoOp.removePart "p1" false]).parts.map Prod.fst →
        n ∉ (runOps (fun _ => true) (Geo2DData.init Unit Unit (some "nm"))
          [GeoOp.addPart "p1" () false, GeoOp.addEdge "e1" () false,
            GeoOp.removePart "p1" false]).edges.map Prod.fst →
        n ∉ (runOps (fun _ => true) (Geo2DData.init Unit Unit (some "nm"))
          [GeoOp.addPart "p1" () false, GeoOp.addEdge "e1" () false,
            GeoOp.removePart "p1" false]).build_order := by
  have hs : SafeOps (fun _ => true) (Geo2DData.init Unit Unit (some "nm"))
      [GeoOp.addPart "p1" () false, GeoOp.addEdge "e1" () false,
        GeoOp.removePart "p1" false] :=
    ⟨⟨rfl, rfl⟩, ⟨rfl, rfl⟩, trivial, trivial⟩
  exact ⟨hs, geo2d_invariant (fun _ => true) (some "nm") _ hs⟩

/-- **C3.**  Resolving one immediate child `c` strictly inside `p`
subtracts exactly `c`: the result is `p \ c`, its area (Lebesgue measure of
the plane set, the model of the shapely polygon area) is the area of `p`
minus the area of `c`, and the region carved out of `p` — the hole, whose
boundary is `c`'s boundary — is exactly `c`. -/
theorem cavity_subtract_one_child (p c : Set (ℝ × ℝ))
    (hsub : c ⊆ p) (hm : MeasurableSet c) (hfin : MeasureTheory.volume p ≠ ⊤) :
    MeasureTheory.volume (resolve_cavities p [c]) =
        MeasureTheory.volume p - MeasureTheory.volume c ∧
      p \ resolve_cavities p [c] = c := by
  have hres : resolve_cavities p [c] = p \ c := rfl
  constructor
  · rw [hres]
    exact MeasureTheory.measure_diff hsub hm.nullMeasurableSet
      (ne_top_of_le_ne_top hfin (MeasureTheory.measure_mono hsub))
  · rw [hres]
    exact Set.diff_diff_cancel_left hsub

/-- Witness for `cavity_subtract_one_child`: the square `[0,3] × [0,3]`
with the strictly nested square `[1,2] × [1,2]`. -/
theorem cavity_subtract_one_child_witness :
    (Set.Icc (1 : ℝ) 2 ×ˢ Set.Icc (1 : ℝ) 2 ⊆ Set.Icc (0 : ℝ) 3 ×ˢ Set.Icc (0 : ℝ) 3) ∧
      MeasurableSet (Set.Icc (1 : ℝ) 2 ×ˢ Set.Icc (1 : ℝ) 2) ∧
      MeasureTheory.volume (Set.Icc (0 : ℝ) 3 ×ˢ Set.Icc (0 : ℝ) 3) ≠ ⊤ ∧
      (MeasureTheory.volume
          (resolve_cavities (Set.Icc (0 : ℝ) 3 ×ˢ Set.Icc (0 : ℝ) 3)
            [Set.Icc (1 : ℝ) 2 ×ˢ Set.Icc (1 : ℝ) 2]) =
        MeasureTheory.volume (Set.Icc (0 : ℝ) 3 ×ˢ Set.Icc (0 : ℝ) 3) -
          MeasureTheory.volume (Set.Icc (1 : ℝ) 2 ×ˢ Set.Icc (1 : ℝ) 2) ∧
      (Set.Icc (0 : ℝ) 3 ×ˢ Set.Icc (0 : ℝ) 3) \
          resolve_cavities (Set.Icc (0 : ℝ) 3 ×ˢ Set.Icc (0 : ℝ) 3)
            [Set.Icc (1 : ℝ) 2 ×ˢ Set.Icc (1 : ℝ) 2] =
        Set.Icc (1 : ℝ) 2 ×ˢ Set.Icc (1 : ℝ) 2) := by
  have hsub : Set.Icc (1 : ℝ) 2 ×ˢ Set.Icc (1 : ℝ) 2 ⊆
      Set.Icc (0 : ℝ) 3 ×ˢ Set.Icc (0 : ℝ) 3 :=
    Set.prod_mono (Set.Icc_subset_Icc (by norm_num) (by norm_num))
      (Set.Icc_subset_Icc (by norm_num) (by norm_num))
  have hm : MeasurableSet (Set.Icc (1 : ℝ) 2 ×ˢ Set.Icc (1 : ℝ) 2) :=
    measurableSet_Icc.prod measurableSet_Icc
  have hfin : MeasureTheory.volume (Set.Icc (0 : ℝ) 3 ×ˢ Set.Icc (0 : ℝ) 3) ≠ ⊤ := by
    rw [MeasureTheory.Measure.volume_eq_prod, MeasureTheory.Measure.prod_prod,
      Real.volume_Icc]
    exact ENNReal.mul_ne_top ENNReal.ofReal_ne_top ENNReal.ofReal_ne_top
  exact ⟨hsub, hm, hfin,
    cavity_subtract_one_child (Set.Icc (0 : ℝ) 3 ×ˢ Set.Icc (0 : ℝ) 3)
      (Set.Icc (1 : ℝ) 2 ×ˢ Set.Icc (1 : ℝ) 2) hsub hm hfin⟩

theorem add_part_ok {P E : Type} (valid : P → Bool) (g : Geo2DData P E) (n : String) (p : P)
    (g2 : Geo2DData P E) (h : Geo2DData.add_part valid g n p false = .ok g2) :
    g2.parts = g.parts ++ [(n, p)] ∧ g2.edges = g.edges ∧ g2.lunit = g.lunit := by
  unfold Geo2DData.add_part at h
  by_cases hv : valid p = true
  · by_cases hc : containsKey g.parts n = true
    · rw [if_neg (by simp [hv]), if_pos (by simp [hc])] at h
      exact absurd h (by simp)
    · have hc' : containsKey g.parts n = false := by simpa using hc
      rw [if_neg (by simp [hv]), if_neg (by simp [hc'])] at h
      simp only [Except.ok.injEq] at h
      rw [← h]
      exact ⟨dictSet_absent g.parts n p hc', rfl, rfl⟩
  · have hv' : valid p = false := by simpa using hv
    rw [if_pos (by simp [hv'])] at h
    exact absurd h (by simp)

theorem addIndexed_ok {P : Type} (valid : P → Bool) (name : String) :
    ∀ (ps : List P) (i : Nat) (g g2 : Geo2DData P Unit),
      addIndexed valid g name i ps = .ok g2 →
      g2.parts = g.parts ++ indexedNames name i ps ∧ g2.edges = g.edges ∧ g2.lunit = g.lunit
  | [], i, g, g2, h => by
    simp only [addIndexed, Except.ok.injEq] at h
    simp [← h, indexedNames]
  | p :: rest, i, g, g2, h => by
    rw [addIndexed] at h
    cases hadd : Geo2DData.add_part valid g (name ++ "_" ++ toString i) p false with
    | error e =>
      rw [hadd] at h
      exact absurd h (by simp)
    | ok gmid =>
      rw [hadd] at h
      dsimp only at h
      obtain ⟨h1, h2, h3⟩ := addIndexed_ok valid name rest (i + 1) gmid g2 h
      obtain ⟨a1, a2, a3⟩ := add_part_ok valid g (name ++ "_" ++ toString i) p gmid hadd
      refine ⟨?_, h2.trans a2, h3.trans a3⟩
      rw [h1, a1, indexedNames, List.append_assoc, List.singleton_append]

theorem addNamed_ok {P : Type} (valid : P → Bool) (g : Geo2DData P Unit) (name : String)
    (ps : List P) (g2 : Geo2DData P Unit) (h : addNamed valid g name ps = .ok g2) :
    g2.parts = g.parts ++ namedOutputs name ps ∧ g2.edges = g.edges ∧ g2.lunit = g.lunit := by
  match ps with
  | [] =>
    simp only [addNamed, Except.ok.injEq] at h
    simp [← h, namedOutputs]
  | [p] =>
    rw [addNamed] at h
    simpa [namedOutputs] using add_part_ok valid g name p g2 h
  | p1 :: p2 :: rest =>
    rw [addNamed] at h
    simpa [namedOutputs] using addIndexed_ok valid name (p1 :: p2 :: rest) 0 g g2 h

theorem polysToAdd_ok {P W : Type} (ops : ShapelyOps P W) (geo : Geo3DData W)
    (cont_graph : List (String × List (String × P))) (name : String) (part : Part3DData W)
    (hpart : dictGet geo.parts name = some part) :
    ∀ (pl : List (String × P)) (res : List P),
      polysToAdd ops geo cont_graph name pl = .ok res →
      res = (pl.map (fun pp =>
          (childrenOf cont_graph pp.1).foldl (fun acc c => ops.difference acc c.2) pp.2)).filter
        (fun q => ops.isInside3D q part)
  | [], res, h => by
    simp only [polysToAdd, Except.ok.injEq] at h
    simp [← h]
  | p :: rest, res, h => by
    rw [polysToAdd, hpart] at h
    dsimp only at h
    cases htail : polysToAdd ops geo cont_graph name rest with
    | error e =>
      rw [htail] at h
      exact absurd h (by simp)
    | ok tail =>
      rw [htail] at h
      dsimp only at h
      simp only [Except.ok.injEq] at h
      have ih := polysToAdd_ok ops geo cont_graph name part hpart rest tail htail
      rw [← h, ih, List.map_cons, List.filter_cons]

theorem polysToAdd_none {P W : Type} (ops : ShapelyOps P W) (geo : Geo3DData W)
    (cont_graph : List (String × List (String × P))) (name : String)
    (hpart : dictGet geo.parts name = none) (pl : List (String × P)) (res : List P)
    (h : polysToAdd ops geo cont_graph name pl = .ok res) : pl = [] ∧ res = [] := by
  cases pl with
  | nil =>
    simp only [polysToAdd, Except.ok.injEq] at h
    exact ⟨rfl, h.symm⟩
  | cons p rest =>
    rw [polysToAdd, hpart] at h
    exact absurd h (by simp)

theorem physLoop_ok {P W : Type} (ops : ShapelyOps P W) (geo : Geo3DData W) :
    ∀ (groups : List (String × List (String × P))) (g g2 : Geo2DData P Unit),
      physLoop ops geo groups g = .ok g2 →
      g2.parts = g.parts ++ specPhys ops geo groups ∧ g2.edges = g.edges ∧ g2.lunit = g.lunit
  | [], g, g2, h => by
    simp only [physLoop, Except.ok.injEq] at h
    simp [← h, specPhys]
  | (name, poly_list) :: rest, g, g2, h => by
    rw [physLoop] at h
    cases hpta : polysToAdd ops geo (build_containment_graph ops poly_list) name poly_list with
    | error e => rw [hpta] at h; exact absurd h (by simp)
    | ok polys =>
      rw [hpta] at h
      dsimp only at h
      cases hadd : addNamed ops.is_valid g name polys with
      | error e =>
        rw [hadd] at h
        exact absurd h (by simp)
      | ok gmid =>
        rw [hadd] at h
        dsimp only at h
        obtain ⟨h1, h2, h3⟩ := physLoop_ok ops geo rest gmid g2 h
        obtain ⟨a1, a2, a3⟩ := addNamed_ok ops.is_valid g name polys gmid hadd
        refine ⟨?_, h2.trans a2, h3.trans a3⟩
        rw [h1, a1, List.append_assoc]
        congr 1
        have hspec : specPhys ops geo ((name, poly_list) :: rest) =
            (match dictGet geo.parts name with
              | some part => namedOutputs name (survivors ops part poly_list)
              | none => []) ++ specPhys ops geo rest := by
          simp [specPhys]
        rw [hspec]
        congr 1
        cases hp : dictGet geo.parts name with
        | some part =>
          have := polysToAdd_ok ops geo (build_containment_graph ops poly_list) name part hp
            poly_list polys hpta
          rw [this]
          rfl
        | none =>
          obtain ⟨hpl, hres⟩ :=
            polysToAdd_none ops geo (build_containment_graph ops poly_list) name hp
              poly_list polys hpta
          rw [hres]
          rfl

theorem virtLoop_ok {P : Type} (valid : P → Bool) :
    ∀ (groups : List (String × List (String × P))) (g g2 : Geo2DData P Unit),
      virtLoop valid groups g = .ok g2 →
      g2.parts = g.parts ++ specVirt groups ∧ g2.edges = g.edges ∧ g2.lunit = g.lunit
  | [], g, g2, h => by
    simp only [virtLoop, Except.ok.injEq] at h
    simp [← h, specVirt]
  | (name, poly_list) :: rest, g, g2, h => by
    rw [virtLoop] at h
    cases hadd : addNamed valid g name (poly_list.map Prod.snd) with
    | error e =>
      rw [hadd] at h
      exact absurd h (by simp)
    | ok gmid =>
      rw [hadd] at h
      dsimp only at h
      obtain ⟨h1, h2, h3⟩ := virtLoop_ok valid rest gmid g2 h
      obtain ⟨a1, a2, a3⟩ := addNamed_ok valid g name (poly_list.map Prod.snd) gmid hadd
      refine ⟨?_, h2.trans a2, h3.trans a3⟩
      rw [h1, a1, List.append_assoc]
      congr 1

theorem xsec_to_2d_eq {P W : Type} (ops : ShapelyOps P W) (geo : Geo3DData W)
    (xsec_name : String) (lunit : Option String)
    (phys virt : List (String × List (String × P)))
    (hpart : xsecPartition ops geo xsec_name = .ok (phys, virt)) :
    xsec_to_2d ops geo xsec_name lunit =
      match physLoop ops geo phys (Geo2DData.init P Unit (some "nm")) with
      | .error e => (.error e, true)
      | .ok g1 =>
        match virtLoop ops.is_valid virt g1 with
        | .error e => (.error e, true)
        | .ok g2 => (.ok { g2 with lunit := lunit }, false) := by
  unfold xsec_to_2d
  rw [hpart]

theorem xsec_ok_cases {P W : Type} (ops : ShapelyOps P W) (geo : Geo3DData W)
    (xsec_name : String) (lunit : Option String) (g : Geo2DData P Unit)
    (hok : (xsec_to_2d ops geo xsec_name lunit).1 = .ok g) :
    ∃ phys virt g1 g2,
      xsecPartition ops geo xsec_name = .ok (phys, virt) ∧
      physLoop ops geo phys (Geo2DData.init P Unit (some "nm")) = .ok g1 ∧
      virtLoop ops.is_valid virt g1 = .ok g2 ∧
      g = { g2 with lunit := lunit } ∧
      (xsec_to_2d ops geo xsec_name lunit).2 = false := by
  unfold xsec_to_2d at hok
  cases hp : xsecPartition ops geo xsec_name with
  | error e =>
    rw [hp] at hok
    exact absurd hok (by simp)
  | ok pv =>
    obtain ⟨phys, virt⟩ := pv
    rw [hp] at hok
    dsimp only at hok
    cases hphys : physLoop ops geo phys (Geo2DData.init P Unit (some "nm")) with
    | error e =>
      rw [hphys] at hok
      exact absurd hok (by simp)
    | ok g1 =>
      rw [hphys] at hok
      dsimp only at hok
      cases hvirt : virtLoop ops.is_valid virt g1 with
      | error e =>
        rw [hvirt] at hok
        exact absurd hok (by simp)
      | ok g2 =>
        rw [hvirt] at hok
        dsimp only at hok
        simp only [Except.ok.injEq] at hok
        refine ⟨phys, virt, g1, g2, rfl, hphys, hvirt, hok.symm, ?_⟩
        unfold xsec_to_2d
        rw [hp]
        dsimp only
        rw [hphys]
        dsimp only
        rw [hvirt]

theorem xsec_parts_decomp {P W : Type} (ops : ShapelyOps P W) (geo : Geo3DData W)
    (xsec_name : String) (lunit : Option String) (g : Geo2DData P Unit)
    (phys virt : List (String × List (String × P)))
    (hpart : xsecPartition ops geo xsec_name = .ok (phys, virt))
    (hok : (xsec_to_2d ops geo xsec_name lunit).1 = .ok g) :
    g.parts = specPhys ops geo phys ++ specVirt virt := by
  obtain ⟨phys2, virt2, g1, g2, hp, hphys, hvirt, hg, -⟩ :=
    xsec_ok_cases ops geo xsec_name lunit g hok
  rw [hpart] at hp
  simp only [Except.ok.injEq, Prod.mk.injEq] at hp
  obtain ⟨hp1, hp2⟩ := hp
  subst hp1
  subst hp2
  obtain ⟨p1, -, -⟩ := physLoop_ok ops geo phys _ g1 hphys
  obtain ⟨v1, -, -⟩ := virtLoop_ok ops.is_valid virt g1 g2 hvirt
  rw [hg]
  dsimp only
  rw [v1, p1]
  simp [Geo2DData.init]

/-- **C4.**  When `xsec_to_2d` succeeds, the output parts dict is exactly:
for each physical group, the §4.5 one-vs-many naming rule (`namedOutputs`)
applied to the polygons surviving cavity resolution in production order
(zero survivors contribute nothing and raise nothing; one survivor is
filed under the part's own name; several are filed under
`{part_name}_{index}` with positional indices) — followed by the virtual
groups' entries. -/
theorem xsec_physical_naming {P W : Type} (ops : ShapelyOps P W) (geo : Geo3DData W)
    (xsec_name : String) (lunit : Option String) (g : Geo2DData P Unit)
    (phys virt : List (String × List (String × P)))
    (hpart : xsecPartition ops geo xsec_name = .ok (phys, virt))
    (hok : (xsec_to_2d ops geo xsec_name lunit).1 = .ok g) :
    g.parts = specPhys ops geo phys ++ specVirt virt :=
  xsec_parts_decomp ops geo xsec_name lunit g phys virt hpart hok

/-- **C6.**  When `xsec_to_2d` succeeds, the virtual parts' contribution to
the output is exactly `specVirt`: each virtual group's projected fragments
are added *unchanged* (`specVirt` mentions no containment graph, no
`difference`, and no 3D inside-test — compare `specPhys`), under the same
one-vs-many naming rule as the physical parts. -/
theorem xsec_virtual_direct {P W : Type} (ops : ShapelyOps P W) (geo : Geo3DData W)
    (xsec_name : String) (lunit : Option String) (g : Geo2DData P Unit)
    (phys virt : List (String × List (String × P)))
    (hpart : xsecPartition ops geo xsec_name = .ok (phys, virt))
    (hok : (xsec_to_2d ops geo xsec_name lunit).1 = .ok g) :
    ∃ physicalEntries, g.parts = physicalEntries ++ specVirt virt :=
  ⟨specPhys ops geo phys, xsec_parts_decomp ops geo xsec_name lunit g phys virt hpart hok⟩

/-- **C10.**  The `Geo2DData` returned by `xsec_to_2d` carries the `lunit`
argument verbatim: the constructor default `"nm"` set at line 669 is
overwritten at line 698, so with the default argument `lunit=None` the
returned geometry's length unit is `None`. -/
theorem xsec_lunit_propagated {P W : Type} (ops : ShapelyOps P W) (geo : Geo3DData W)
    (xsec_name : String) (lunit : Option String) (g : Geo2DData P Unit)
    (hok : (xsec_to_2d ops geo xsec_name lunit).1 = .ok g) :
    g.lunit = lunit := by
  obtain ⟨-, -, -, g2, -, -, -, hg, -⟩ := xsec_ok_cases ops geo xsec_name lunit g hok
  rw [hg]

/-- **C8, amended.**  `xsec_to_2d` closes the FreeCAD document on the
success path only; when an exception is raised after the document is
activated (see `xsec_doc_leak_cex`) the document is left open, because
`FreeCAD.closeDocument("instance")` is only reached at the end of the
function and there is no try/finally. -/
theorem xsec_doc_closed_on_success {P W : Type} (ops : ShapelyOps P W) (geo : Geo3DData W)
    (xsec_name : String) (lunit : Option String) (g : Geo2DData P Unit)
    (hok : (xsec_to_2d ops geo xsec_name lunit).1 = .ok g) :
    (xsec_to_2d ops geo xsec_name lunit).2 = false := by
  obtain ⟨-, -, -, -, -, -, -, -, h2⟩ := xsec_ok_cases ops geo xsec_name lunit g hok
  exact h2

theorem okGeo_graph :
    build_containment_graph listOps [("A_0", ([] : List (ℚ × ℚ)))] = [("A_0", [])] := by
  simp only [build_containment_graph, List.mergeSort_singleton]
  rfl

theorem okGeo_run :
    xsec_to_2d listOps okGeo "cut" none =
      (.ok (⟨[("A", [])], [], ["A"], none⟩ : Geo2DData (List (ℚ × ℚ)) Unit), false) := by
  have hpart : xsecPartition listOps okGeo "cut" = .ok ([("A", [("A_0", [])])], []) := rfl
  rw [xsec_to_2d_eq listOps okGeo "cut" none _ _ hpart]
  have hphys : physLoop listOps okGeo [("A", [("A_0", [])])]
      (Geo2DData.init (List (ℚ × ℚ)) Unit (some "nm")) =
      .ok ⟨[("A", [])], [], ["A"], some "nm"⟩ := by
    rw [physLoop, okGeo_graph]
    rfl
  rw [hphys]
  rfl

/-- **C8, counterexample.**  An error raised after the document is
activated leaves it open: with shapely validity failing on the resolved
polygon, `add_part` raises inside the physical loop (after
`get_data("fcdoc")` at line 670) and `closeDocument` (line 700) is never
reached — the second component `true` records that the document was still
open when the exception escaped. -/
theorem xsec_doc_leak_cex :
    xsec_to_2d invalidOps okGeo "cut" none =
      (.error "Part A is not a valid polygon.", true) := by
  have hpart : xsecPartition invalidOps okGeo "cut" = .ok ([("A", [("A_0", [])])], []) := rfl
  rw [xsec_to_2d_eq invalidOps okGeo "cut" none _ _ hpart]
  have hgr : build_containment_graph invalidOps [("A_0", ([] : List (ℚ × ℚ)))] =
      [("A_0", [])] := by
    simp only [build_containment_graph, List.mergeSort_singleton]
    rfl
  have hphys : physLoop invalidOps okGeo [("A", [("A_0", [])])]
      (Geo2DData.init (List (ℚ × ℚ)) Unit (some "nm")) =
      .error "Part A is not a valid polygon." := by
    rw [physLoop, hgr]
    rfl
  rw [hphys]

/-- Witness for `xsec_physical_naming`: the one-part geometry `okGeo` with
a single surviving polygon, filed under the part's own name "A". -/
theorem xsec_physical_naming_witness :
    xsecPartition listOps okGeo "cut" = .ok ([("A", [("A_0", [])])], []) ∧
      (xsec_to_2d listOps okGeo "cut" none).1 =
        .ok (⟨[("A", [])], [], ["A"], none⟩ : Geo2DData (List (ℚ × ℚ)) Unit) ∧
      (⟨[("A", [])], [], ["A"], none⟩ : Geo2DData (List (ℚ × ℚ)) Unit).parts =
        specPhys listOps okGeo [("A", [("A_0", [])])] ++ specVirt [] := by
  have hok : (xsec_to_2d listOps okGeo "cut" none).1 =
      .ok (⟨[("A", [])], [], ["A"], none⟩ : Geo2DData (List (ℚ × ℚ)) Unit) := by
    rw [okGeo_run]
  exact ⟨rfl, hok, xsec_physical_naming listOps okGeo "cut" none _ _ _ rfl hok⟩

theorem virtGeo_run :
    xsec_to_2d listOps virtGeo "cut" none =
      (.ok (⟨[("A", []), ("V_0", []), ("V_1", [])], [], ["A", "V_0", "V_1"], none⟩ :
        Geo2DData (List (ℚ × ℚ)) Unit), false) := by
  have hpart : xsecPartition listOps virtGeo "cut" =
      .ok ([("A", [("A_0", [])])], [("V", [("V_0", []), ("V_1", [])])]) := rfl
  rw [xsec_to_2d_eq listOps virtGeo "cut" none _ _ hpart]
  have hphys : physLoop listOps virtGeo [("A", [("A_0", [])])]
      (Geo2DData.init (List (ℚ × ℚ)) Unit (some "nm")) =
      .ok ⟨[("A", [])], [], ["A"], some "nm"⟩ := by
    rw [physLoop, okGeo_graph]
    rfl
  rw [hphys]
  rfl

/-- Witness for `xsec_virtual_direct` at the concrete geometry `virtGeo`:
the virtual part "V" has two fragments, which survive untouched as the
suffix entries "V_0" and "V_1" of the output, after the physical part's
entry "A". -/
theorem xsec_virtual_direct_witness :
    xsecPartition listOps virtGeo "cut" =
        .ok ([("A", [("A_0", [])])], [("V", [("V_0", []), ("V_1", [])])]) ∧
      (xsec_to_2d listOps virtGeo "cut" none).1 =
        .ok (⟨[("A", []), ("V_0", []), ("V_1", [])], [], ["A", "V_0", "V_1"], none⟩ :
          Geo2DData (List (ℚ × ℚ)) Unit) ∧
      specVirt [("V", [("V_0", ([] : List (ℚ × ℚ))), ("V_1", [])])] =
        [("V_0", []), ("V_1", [])] ∧
      ∃ physicalEntries,
        (⟨[("A", []), ("V_0", []), ("V_1", [])], [], ["A", "V_0", "V_1"], none⟩ :
            Geo2DData (List (ℚ × ℚ)) Unit).parts =
          physicalEntries ++ specVirt [("V", [("V_0", []), ("V_1", [])])] := by
  have hok : (xsec_to_2d listOps virtGeo "cut" none).1 =
      .ok (⟨[("A", []), ("V_0", []), ("V_1", [])], [], ["A", "V_0", "V_1"], none⟩ :
        Geo2DData (List (ℚ × ℚ)) Unit) := by
    rw [virtGeo_run]
  exact ⟨rfl, hok, rfl, xsec_virtual_direct listOps virtGeo "cut" none _ _ _ rfl hok⟩

/-- Witness for `xsec_lunit_propagated`: the successful run on `okGeo`
with `lunit = none`, whose output carries `lunit = none` (overriding the
constructor default `"nm"`). -/
theorem xsec_lunit_propagated_witness :
    (xsec_to_2d listOps okGeo "cut" none).1 =
        .ok (⟨[("A", [])], [], ["A"], none⟩ : Geo2DData (List (ℚ × ℚ)) Unit) ∧
      (⟨[("A", [])], [], ["A"], none⟩ : Geo2DData (List (ℚ × ℚ)) Unit).lunit = none := by
  have hok : (xsec_to_2d listOps okGeo "cut" none).1 =
      .ok (⟨[("A", [])], [], ["A"], none⟩ : Geo2DData (List (ℚ × ℚ)) Unit) := by
    rw [okGeo_run]
  exact ⟨hok, xsec_lunit_propagated listOps okGeo "cut" none _ hok⟩

/-- Witness for `xsec_doc_closed_on_success`: the successful run on
`okGeo` reports the document closed. -/
theorem xsec_doc_closed_on_success_witness :
    (xsec_to_2d listOps okGeo "cut" none).1 =
        .ok (⟨[("A", [])], [], ["A"], none⟩ : Geo2DData (List (ℚ × ℚ)) Unit) ∧
      (xsec_to_2d listOps okGeo "cut" none).2 = false := by
  have hok : (xsec_to_2d listOps okGeo "cut" none).1 =
      .ok (⟨[("A", [])], [], ["A"], none⟩ : Geo2DData (List (ℚ × ℚ)) Unit) := by
    rw [okGeo_run]
  exact ⟨hok, xsec_doc_closed_on_success listOps okGeo "cut" none _ hok⟩

theorem mem_dictSet {α : Type} (d : List (String × α)) (k : String) (v : α) :
    ∀ e ∈ dictSet d k v, e ∈ d ∨ e = (k, v) := by
  intro e he
  unfold dictSet at he
  by_cases hc : containsKey d k = true
  · rw [if_pos hc] at he
    obtain ⟨orig, ho, heq⟩ := List.mem_map.mp he
    by_cases hok : orig.1 = k
    · right
      rw [← heq, if_pos hok]
    · left
      rw [← heq, if_neg hok]
      exact ho
  · rw [if_neg hc] at he
    rcases List.mem_append.mp he with h | h
    · exact Or.inl h
    · right
      simpa using h

theorem mem_projectFragments {P : Type} (mk : List (ℚ × ℚ) → P) (x_new : Vec3) (distance : ℚ)
    (frags : List (String × List Vec3)) (k : String) (pp : String × P)
    (h : pp ∈ projectFragments mk x_new distance frags k) :
    startswith pp.1 (k ++ "_") = true ∧
      ∃ pts, (pp.1, pts) ∈ frags ∧ pp.2 = mk (pts.map (proj_plane x_new distance)) := by
  unfold projectFragments at h
  obtain ⟨nv, hnv, heq⟩ := List.mem_map.mp h
  obtain ⟨hmem, hsw⟩ := List.mem_filter.mp hnv
  rw [← heq]
  exact ⟨hsw, nv.2, hmem, rfl⟩

theorem partitionLoop_spec {P W : Type} (ops : ShapelyOps P W) (geo : Geo3DData W)
    (x_new : Vec3) (distance : ℚ) (frags : List (String × List Vec3)) :
    ∀ (bo : List String) (accp accv physv virtv : List (String × List (String × P))),
      partitionLoop ops geo x_new distance frags bo accp accv = .ok (physv, virtv) →
      ∀ e ∈ physv ++ virtv,
        e ∈ accp ++ accv ∨
          (e.1 ∈ bo ∧ e.2 = projectFragments ops.mkPolygon x_new distance frags e.1)
  | [], accp, accv, physv, virtv, h, e, he => by
    simp only [partitionLoop, Except.ok.injEq, Prod.mk.injEq] at h
    obtain ⟨h1, h2⟩ := h
    rw [← h1, ← h2] at he
    exact Or.inl he
  | part_name :: rest, accp, accv, physv, virtv, h, e, he => by
    rw [partitionLoop] at h
    by_cases hemp :
        (projectFragments ops.mkPolygon x_new distance frags part_name).isEmpty = true
    · rw [if_pos hemp] at h
      rcases partitionLoop_spec ops geo x_new distance frags rest accp accv physv virtv h e he
        with hacc | ⟨hbo, hgood⟩
      · exact Or.inl hacc
      · exact Or.inr ⟨List.mem_cons_of_mem _ hbo, hgood⟩
    · rw [if_neg hemp] at h
      cases hg : dictGet geo.parts part_name with
      | none =>
        rw [hg] at h
        exact absurd h (by simp)
      | some part =>
        rw [hg] at h
        dsimp only at h
        by_cases hdt : part.domain_type = some "virtual"
        · rw [if_pos hdt] at h
          rcases partitionLoop_spec ops geo x_new distance frags rest accp
              (dictSet accv part_name (projectFragments ops.mkPolygon x_new distance frags
                part_name)) physv virtv h e he with hacc | ⟨hbo, hgood⟩
          · rcases List.mem_append.mp hacc with h1 | h2
            · exact Or.inl (List.mem_append.mpr (Or.inl h1))
            · rcases mem_dictSet _ _ _ _ h2 with h3 | rfl
              · exact Or.inl (List.mem_append.mpr (Or.inr h3))
              · exact Or.inr ⟨List.mem_cons_self _ _, rfl⟩
          · exact Or.inr ⟨List.mem_cons_of_mem _ hbo, hgood⟩
        · rw [if_neg hdt] at h
          rcases partitionLoop_spec ops geo x_new distance frags rest
              (dictSet accp part_name (projectFragments ops.mkPolygon x_new distance frags
                part_name)) accv physv virtv h e he with hacc | ⟨hbo, hgood⟩
          · rcases List.mem_append.mp hacc with h1 | h2
            · rcases mem_dictSet _ _ _ _ h1 with h3 | rfl
              · exact Or.inl (List.mem_append.mpr (Or.inl h3))
              · exact Or.inr ⟨List.mem_cons_self _ _, rfl⟩
            · exact Or.inl (List.mem_append.mpr (Or.inr h2))
          · exact Or.inr ⟨List.mem_cons_of_mem _ hbo, hgood⟩

/-- **C5, counterexample.**  The claim asserts every fragment is assigned
to at most one part's group.  With parts "A" and "A_1" both in
`build_order`, the fragment "A_1_0" name-prefix-matches both `"A_"` and
`"A_1_"`, so the partition places the same fragment in both physical
groups. -/
theorem xsec_partition_overlap_cex :
    ∃ physv virtv,
      xsecPartition listOps prefixGeo "cut" = .ok (physv, virtv) ∧
        ¬ (∀ g1 ∈ physv ++ virtv, ∀ g2 ∈ physv ++ virtv, g1.1 ≠ g2.1 →
            ∀ nm ∈ g1.2.map Prod.fst, nm ∉ g2.2.map Prod.fst) := by
  refine ⟨[("A", [("A_1_0", [])]), ("A_1", [("A_1_0", [])])], [], rfl, ?_⟩
  intro hcl
  exact hcl ("A", [("A_1_0", [])]) (by simp) ("A_1", [("A_1_0", [])]) (by simp) (by decide)
    "A_1_0" (by simp) (by simp)

/-- **C5, amended.**  *Provided no part name followed by the separator is a
prefix of another part name followed by the separator* (the collision case
the spec itself flags as a documented ambiguity), the partition assigns
every fragment to at most one part's group, and each projected polygon in
any group keeps the fragment's original name, paired with the projection
of that fragment's stored 3D points. -/
theorem xsec_partition_disjoint {P W : Type} (ops : ShapelyOps P W) (geo : Geo3DData W)
    (xsec_name : String) (xsec : Xsec) (physv virtv : List (String × List (String × P)))
    (hx : dictGet geo.xsecs xsec_name = some xsec)
    (hok : xsecPartition ops geo xsec_name = .ok (physv, virtv))
    (hnp : ∀ a ∈ geo.build_order, ∀ b ∈ geo.build_order, a ≠ b →
      startswith (b ++ "_") (a ++ "_") = false) :
    (∀ g1 ∈ physv ++ virtv, ∀ g2 ∈ physv ++ virtv, g1.1 ≠ g2.1 →
        ∀ nm ∈ g1.2.map Prod.fst, nm ∉ g2.2.map Prod.fst) ∧
      ∀ gr ∈ physv ++ virtv, ∀ pp ∈ gr.2,
        ∃ pts, (pp.1, pts) ∈ xsec.polygons ∧
          pp.2 = ops.mkPolygon (pts.map (proj_plane xsec.axis xsec.distance)) := by
  unfold xsecPartition at hok
  rw [hx] at hok
  have hspec : ∀ e ∈ physv ++ virtv,
      e.1 ∈ geo.build_order ∧
        e.2 = projectFragments ops.mkPolygon xsec.axis xsec.distance xsec.polygons e.1 := by
    intro e he
    rcases partitionLoop_spec ops geo xsec.axis xsec.distance xsec.polygons geo.build_order
        [] [] physv virtv hok e he with hacc | hgood
    · simp at hacc
    · exact hgood
  constructor
  · rintro g1 hg1 g2 hg2 hne nm hnm1 hnm2
    obtain ⟨hk1, hv1⟩ := hspec g1 hg1
    obtain ⟨hk2, hv2⟩ := hspec g2 hg2
    obtain ⟨pp1, hpp1, hnmeq1⟩ := List.mem_map.mp hnm1
    obtain ⟨pp2, hpp2, hnmeq2⟩ := List.mem_map.mp hnm2
    rw [hv1] at hpp1
    rw [hv2] at hpp2
    have hsw1 := (mem_projectFragments ops.mkPolygon xsec.axis xsec.distance xsec.polygons
      g1.1 pp1 hpp1).1
    have hsw2 := (mem_projectFragments ops.mkPolygon xsec.axis xsec.distance xsec.polygons
      g2.1 pp2 hpp2).1
    rw [hnmeq1] at hsw1
    rw [hnmeq2] at hsw2
    unfold startswith at hsw1 hsw2
    have hpre1 : (g1.1 ++ "_").data <+: nm.data := List.isPrefixOf_iff_prefix.mp hsw1
    have hpre2 : (g2.1 ++ "_").data <+: nm.data := List.isPrefixOf_iff_prefix.mp hsw2
    rcases List.prefix_or_prefix_of_prefix hpre1 hpre2 with hp | hp
    · have := hnp g1.1 hk1 g2.1 hk2 hne
      unfold startswith at this
      rw [List.isPrefixOf_iff_prefix.mpr hp] at this
      exact Bool.noConfusion this
    · have := hnp g2.1 hk2 g1.1 hk1 (Ne.symm hne)
      unfold startswith at this
      rw [List.isPrefixOf_iff_prefix.mpr hp] at this
      exact Bool.noConfusion this
  · intro gr hgr pp hpp
    obtain ⟨-, hv⟩ := hspec gr hgr
    rw [hv] at hpp
    obtain ⟨-, pts, hmem, heq⟩ := mem_projectFragments ops.mkPolygon xsec.axis xsec.distance
      xsec.polygons gr.1 pp hpp
    exact ⟨pts, hmem, heq⟩

/-- Witness for `xsec_partition_disjoint`: the single-part geometry
`okGeo`, whose one group holds the fragment "A_0" under its original
name. -/
theorem xsec_partition_disjoint_witness :
    dictGet okGeo.xsecs "cut" = some ⟨⟨1, 0, 0⟩, 0, [("A_0", [])]⟩ ∧
      xsecPartition listOps okGeo "cut" = .ok ([("A", [("A_0", [])])], []) ∧
      (∀ a ∈ okGeo.build_order, ∀ b ∈ okGeo.build_order, a ≠ b →
        startswith (b ++ "_") (a ++ "_") = false) ∧
      ((∀ g1 ∈ [("A", [("A_0", ([] : List (ℚ × ℚ)))])] ++ ([] : List (String × List (String × List (ℚ × ℚ)))),
          ∀ g2 ∈ [("A", [("A_0", ([] : List (ℚ × ℚ)))])] ++ ([] : List (String × List (String × List (ℚ × ℚ)))),
          g1.1 ≠ g2.1 → ∀ nm ∈ g1.2.map Prod.fst, nm ∉ g2.2.map Prod.fst) ∧
        ∀ gr ∈ [("A", [("A_0", ([] : List (ℚ × ℚ)))])] ++ ([] : List (String × List (String × List (ℚ × ℚ)))),
          ∀ pp ∈ gr.2,
          ∃ pts, (pp.1, pts) ∈ (⟨⟨1, 0, 0⟩, 0, [("A_0", [])]⟩ : Xsec).polygons ∧
            pp.2 = listOps.mkPolygon (pts.map (proj_plane (⟨⟨1, 0, 0⟩, 0, [("A_0", [])]⟩ : Xsec).axis
              (⟨⟨1, 0, 0⟩, 0, [("A_0", [])]⟩ : Xsec).distance))) := by
  have hnp : ∀ a ∈ okGeo.build_order, ∀ b ∈ okGeo.build_order, a ≠ b →
      startswith (b ++ "_") (a ++ "_") = false := by decide
  exact ⟨rfl, rfl, hnp,
    xsec_partition_disjoint listOps okGeo "cut" ⟨⟨1, 0, 0⟩, 0, [("A_0", [])]⟩
      [("A", [("A_0", [])])] [] rfl rfl hnp⟩

theorem cgLoop_eq_foldl {P W : Type} (ops : ShapelyOps P W) :
    ∀ (S : List (String × P)) (g : List (String × List (String × P))),
      cgLoop ops S g =
        (assigned ops S).foldl (fun acc pq => updateFirst acc pq.2.1 pq.1) g
  | [], g => rfl
  | p :: rest, g => by
    rw [cgLoop, assigned]
    cases h : rest.find? (fun q => ops.contains q.2 p.2) with
    | none => exact cgLoop_eq_foldl ops rest g
    | some q => exact cgLoop_eq_foldl ops rest (updateFirst g q.1 p)

theorem updateFirst_keys {P : Type} :
    ∀ (g : List (String × List (String × P))) (k : String) (c : String × P),
      (updateFirst g k c).map Prod.fst = g.map Prod.fst
  | [], _, _ => rfl
  | e :: es, k, c => by
    rw [updateFirst]
    by_cases h : e.1 = k
    · rw [if_pos h]
      simp
    · rw [if_neg h]
      simp [updateFirst_keys es k c]

theorem dictGet_cons {α : Type} (x : String × α) (l : List (String × α)) (k : String) :
    dictGet (x :: l) k = if x.1 = k then some x.2 else dictGet l k := by
  unfold dictGet
  by_cases h : x.1 = k
  · rw [List.find?_cons_of_pos _ (by simp [h]), if_pos h]
    rfl
  · rw [List.find?_cons_of_neg _ (by simp [h]), if_neg h]

theorem dictGet_updateFirst {P : Type} :
    ∀ (g : List (String × List (String × P))) (k k2 : String) (c : String × P),
      dictGet (updateFirst g k c) k2 =
        if k2 = k then (dictGet g k2).map (fun l => l ++ [c]) else dictGet g k2
  | [], k, k2, c => by
    by_cases hk2 : k2 = k <;> simp [updateFirst, dictGet, hk2]
  | e :: es, k, k2, c => by
    rw [updateFirst]
    by_cases he : e.1 = k
    · rw [if_pos he, dictGet_cons, dictGet_cons]
      by_cases hk2 : k2 = k
      · subst hk2
        rw [if_pos he, if_pos he, if_pos rfl]
        rfl
      · have hne : ¬ e.1 = k2 := by
          rw [he]
          exact fun hh => hk2 hh.symm
        rw [if_neg hne, if_neg hne, if_neg hk2]
    · rw [if_neg he, dictGet_cons, dictGet_cons]
      by_cases hx : e.1 = k2
      · have hk2 : ¬ k2 = k := fun hh => he (by rw [hx, hh])
        rw [if_pos hx, if_pos hx, if_neg hk2]
      · rw [if_neg hx, if_neg hx, dictGet_updateFirst es k k2 c]

theorem dictGet_eq_some_imp {α : Type} (g : List (String × α)) (k : String) (v : α)
    (h : dictGet g k = some v) : ∃ e ∈ g, e.1 = k ∧ e.2 = v := by
  unfold dictGet at h
  cases hf : g.find? (fun e => decide (e.1 = k)) with
  | none => rw [hf] at h; exact absurd h (by simp)
  | some e =>
    rw [hf] at h
    simp at h
    refine ⟨e, List.mem_of_find?_eq_some hf, ?_, h⟩
    have := List.find?_some hf
    simpa using this

theorem dictGet_some_of_mem {α : Type} (g : List (String × α)) (k : String)
    (h : k ∈ g.map Prod.fst) : ∃ v, dictGet g k = some v := by
  unfold dictGet
  cases hf : g.find? (fun e => decide (e.1 = k)) with
  | some e => exact ⟨e.2, by simp⟩
  | none =>
    rw [List.find?_eq_none] at hf
    obtain ⟨e, he, hek⟩ := List.mem_map.mp h
    exact absurd (by simpa using hek) (hf e he)

theorem childrenOf_init {P : Type} (L : List (String × P)) (k : String) :
    childrenOf (L.map (fun p => (p.1, ([] : List (String × P))))) k = [] := by
  unfold childrenOf
  cases h : dictGet (L.map (fun p => (p.1, ([] : List (String × P))))) k with
  | none => rfl
  | some v =>
    obtain ⟨e, he, -, hev⟩ := dictGet_eq_some_imp _ k v h
    obtain ⟨p, -, hpe⟩ := List.mem_map.mp he
    rw [← hev, ← hpe]
    rfl

theorem childrenOf_updateFirst_of_mem {P : Type} (g : List (String × List (String × P)))
    (k0 : String) (c0 : String × P) (hk0 : k0 ∈ g.map Prod.fst) (k : String) :
    childrenOf (updateFirst g k0 c0) k =
      if k = k0 then childrenOf g k ++ [c0] else childrenOf g k := by
  unfold childrenOf
  rw [dictGet_updateFirst g k0 k c0]
  by_cases hk : k = k0
  · rw [if_pos hk, if_pos hk, hk]
    obtain ⟨v, hv⟩ := dictGet_some_of_mem g k0 hk0
    rw [hv]
    rfl
  · rw [if_neg hk, if_neg hk]

theorem childrenOf_foldl {P : Type} :
    ∀ (l : List ((String × P) × (String × P))) (g : List (String × List (String × P))),
      (∀ pq ∈ l, pq.2.1 ∈ g.map Prod.fst) →
      ∀ (k : String) (c : String × P),
        (c ∈ childrenOf (l.foldl (fun acc pq => updateFirst acc pq.2.1 pq.1) g) k ↔
          c ∈ childrenOf g k ∨ ∃ q, (c, q) ∈ l ∧ q.1 = k)
  | [], g, hl, k, c => by
    rw [List.foldl_nil]
    constructor
    · exact fun h => Or.inl h
    · rintro (h | ⟨q, hq, -⟩)
      · exact h
      · exact absurd hq (List.not_mem_nil _)
  | pq :: rest, g, hl, k, c => by
    rw [List.foldl_cons]
    have hrest : ∀ pq2 ∈ rest, pq2.2.1 ∈ (updateFirst g pq.2.1 pq.1).map Prod.fst := by
      intro pq2 h2
      rw [updateFirst_keys]
      exact hl pq2 (List.mem_cons_of_mem _ h2)
    rw [childrenOf_foldl rest (updateFirst g pq.2.1 pq.1) hrest k c]
    rw [childrenOf_updateFirst_of_mem g pq.2.1 pq.1 (hl pq (List.mem_cons_self _ _)) k]
    constructor
    · rintro (hin | ⟨q, hq, hqk⟩)
      · by_cases hk : k = pq.2.1
        · rw [if_pos hk] at hin
          rcases List.mem_append.mp hin with h1 | h2
          · exact Or.inl h1
          · right
            refine ⟨pq.2, ?_, hk.symm⟩
            have : c = pq.1 := by simpa using h2
            rw [this]
            exact List.mem_cons_self _ _
        · rw [if_neg hk] at hin
          exact Or.inl hin
      · exact Or.inr ⟨q, List.mem_cons_of_mem _ hq, hqk⟩
    · rintro (hin | ⟨q, hq, hqk⟩)
      · left
        by_cases hk : k = pq.2.1
        · rw [if_pos hk]
          exact List.mem_append.mpr (Or.inl hin)
        · rw [if_neg hk]
          exact hin
      · rcases List.mem_cons.mp hq with heq | htail
        · left
          have hc : c = pq.1 := congrArg Prod.fst heq
          have hq2 : q = pq.2 := congrArg Prod.snd heq
          have hk : k = pq.2.1 := by rw [← hqk, hq2]
          rw [if_pos hk, hc]
          simp
        · exact Or.inr ⟨q, htail, hqk⟩

theorem find?_min_area {P W : Type} (ops : ShapelyOps P W) (pred : String × P → Bool) :
    ∀ (l : List (String × P)),
      l.Pairwise (fun a b => ops.area a.2 < ops.area b.2) →
      ∀ q, l.find? pred = some q →
        pred q = true ∧ q ∈ l ∧ ∀ r ∈ l, pred r = true → ops.area q.2 ≤ ops.area r.2
  | [], _, q, h => by simp at h
  | x :: t, hp, q, h => by
    obtain ⟨hx_rel, hp_t⟩ := List.pairwise_cons.mp hp
    by_cases hx : pred x = true
    · rw [List.find?_cons_of_pos _ hx] at h
      simp only [Option.some.injEq] at h
      subst h
      refine ⟨hx, List.mem_cons_self _ _, ?_⟩
      intro r hr _hpr
      rcases List.mem_cons.mp hr with rfl | hrt
      · exact le_refl _
      · exact le_of_lt (hx_rel r hrt)
    · rw [List.find?_cons_of_neg _ (by simp [hx])] at h
      obtain ⟨h1, h2, h3⟩ := find?_min_area ops pred t hp_t q h
      refine ⟨h1, List.mem_cons_of_mem _ h2, ?_⟩
      intro r hr hpr
      rcases List.mem_cons.mp hr with rfl | hrt
      · exact absurd hpr hx
      · exact h3 r hrt hpr

theorem assigned_mem_mem {P W : Type} (ops : ShapelyOps P W) :
    ∀ (S : List (String × P)) (p q : String × P),
      (p, q) ∈ assigned ops S → p ∈ S ∧ q ∈ S
  | [], p, q, h => by simp [assigned] at h
  | x :: t, p, q, h => by
    rw [assigned] at h
    cases hf : t.find? (fun q2 => ops.contains q2.2 x.2) with
    | none =>
      rw [hf] at h
      have hm := assigned_mem_mem ops t p q h
      exact ⟨List.mem_cons_of_mem _ hm.1, List.mem_cons_of_mem _ hm.2⟩
    | some q0 =>
      rw [hf] at h
      rcases List.mem_cons.mp h with heq | htail
      · have hp : p = x := congrArg Prod.fst heq
        have hq : q = q0 := congrArg Prod.snd heq
        subst hp
        subst hq
        exact ⟨List.mem_cons_self _ _,
          List.mem_cons_of_mem _ (List.mem_of_find?_eq_some hf)⟩
      · have hm := assigned_mem_mem ops t p q htail
        exact ⟨List.mem_cons_of_mem _ hm.1, List.mem_cons_of_mem _ hm.2⟩

theorem assigned_spec {P W : Type} (ops : ShapelyOps P W) :
    ∀ (S : List (String × P)),
      S.Pairwise (fun a b => ops.area a.2 < ops.area b.2) →
      (∀ a ∈ S, ∀ b ∈ S, ops.contains a.2 b.2 = true → a ≠ b →
        ops.area b.2 < ops.area a.2) →
      ∀ p q, (p, q) ∈ assigned ops S →
        p ∈ S ∧ q ∈ S ∧ q ≠ p ∧ ops.contains q.2 p.2 = true ∧
          ∀ r ∈ S, r ≠ p → ops.contains r.2 p.2 = true → ops.area q.2 ≤ ops.area r.2
  | [], _, _, p, q, h => by simp [assigned] at h
  | x :: t, hp, hmono, p, q, h => by
    obtain ⟨hx_rel, hp_t⟩ := List.pairwise_cons.mp hp
    have hmono_t : ∀ a ∈ t, ∀ b ∈ t, ops.contains a.2 b.2 = true → a ≠ b →
        ops.area b.2 < ops.area a.2 :=
      fun a ha b hb =>
        hmono a (List.mem_cons_of_mem _ ha) b (List.mem_cons_of_mem _ hb)
    rw [assigned] at h
    cases hf : t.find? (fun q2 => ops.contains q2.2 x.2) with
    | none =>
      rw [hf] at h
      obtain ⟨h1, h2, h3, h4, h5⟩ := assigned_spec ops t hp_t hmono_t p q h
      refine ⟨List.mem_cons_of_mem _ h1, List.mem_cons_of_mem _ h2, h3, h4, ?_⟩
      intro r hr hrp hcont
      rcases List.mem_cons.mp hr with rfl | hrt
      · exfalso
        have hlt1 : ops.area p.2 < ops.area r.2 :=
          hmono r (List.mem_cons_self _ _) p (List.mem_cons_of_mem _ h1) hcont hrp
        have hlt2 : ops.area r.2 < ops.area p.2 := hx_rel p h1
        exact lt_asymm hlt1 hlt2
      · exact h5 r hrt hrp hcont
    | some q0 =>
      rw [hf] at h
      rcases List.mem_cons.mp h with heq | htail
      · have hpx : p = x := congrArg Prod.fst heq
        have hqq : q = q0 := congrArg Prod.snd heq
        subst hpx
        subst hqq
        obtain ⟨hpred, hqt, hmin⟩ :=
          find?_min_area ops (fun q2 => ops.contains q2.2 p.2) t hp_t q hf
        refine ⟨List.mem_cons_self _ _, List.mem_cons_of_mem _ hqt, ?_, hpred, ?_⟩
        · intro hqp
          have hlt := hx_rel q hqt
          rw [hqp] at hlt
          exact lt_irrefl _ hlt
        · intro r hr hrp hcont
          rcases List.mem_cons.mp hr with rfl | hrt
          · exact absurd rfl hrp
          · exact hmin r hrt hcont
      · obtain ⟨h1, h2, h3, h4, h5⟩ := assigned_spec ops t hp_t hmono_t p q htail
        refine ⟨List.mem_cons_of_mem _ h1, List.mem_cons_of_mem _ h2, h3, h4, ?_⟩
        intro r hr hrp hcont
        rcases List.mem_cons.mp hr with rfl | hrt
        · exfalso
          have hlt1 : ops.area p.2 < ops.area r.2 :=
            hmono r (List.mem_cons_self _ _) p (List.mem_cons_of_mem _ h1) hcont hrp
          have hlt2 : ops.area r.2 < ops.area p.2 := hx_rel p h1
          exact lt_asymm hlt1 hlt2
        · exact h5 r hrt hrp hcont

theorem assigned_exists {P W : Type} (ops : ShapelyOps P W) :
    ∀ (S : List (String × P)),
      S.Pairwise (fun a b => ops.area a.2 < ops.area b.2) →
      (∀ a ∈ S, ∀ b ∈ S, ops.contains a.2 b.2 = true → a ≠ b →
        ops.area b.2 < ops.area a.2) →
      ∀ p ∈ S, (∃ r, r ∈ S ∧ r ≠ p ∧ ops.contains r.2 p.2 = true) →
        ∃ q, (p, q) ∈ assigned ops S
  | [], _, _, p, hpmem, _ => by simp at hpmem
  | x :: t, hp, hmono, p, hpmem, ⟨r, hr, hrp, hcont⟩ => by
    obtain ⟨hx_rel, hp_t⟩ := List.pairwise_cons.mp hp
    have hmono_t : ∀ a ∈ t, ∀ b ∈ t, ops.contains a.2 b.2 = true → a ≠ b →
        ops.area b.2 < ops.area a.2 :=
      fun a ha b hb =>
        hmono a (List.mem_cons_of_mem _ ha) b (List.mem_cons_of_mem _ hb)
    rcases List.mem_cons.mp hpmem with rfl | hpt
    · have hrt : r ∈ t := by
        rcases List.mem_cons.mp hr with rfl | hmem
        · exact absurd rfl hrp
        · exact hmem
      rw [assigned]
      cases hf : t.find? (fun q2 => ops.contains q2.2 p.2) with
      | none =>
        rw [List.find?_eq_none] at hf
        exact absurd hcont (by simpa using hf r hrt)
      | some q0 => exact ⟨q0, List.mem_cons_self _ _⟩
    · have hrt : r ∈ t := by
        rcases List.mem_cons.mp hr with rfl | hmem
        · exfalso
          have h1 := hmono r hr p hpmem hcont hrp
          have h2 := hx_rel p hpt
          exact lt_asymm h1 h2
        · exact hmem
      obtain ⟨q, hq⟩ := assigned_exists ops t hp_t hmono_t p hpt ⟨r, hrt, hrp, hcont⟩
      rw [assigned]
      cases hf : t.find? (fun q2 => ops.contains q2.2 x.2) with
      | none => exact ⟨q, hq⟩
      | some q0 => exact ⟨q, List.mem_cons_of_mem _ hq⟩

theorem assigned_fst_unique {P W : Type} (ops : ShapelyOps P W) :
    ∀ (S : List (String × P)),
      S.Pairwise (fun a b => ops.area a.2 < ops.area b.2) →
      ∀ p q q2, (p, q) ∈ assigned ops S → (p, q2) ∈ assigned ops S → q = q2
  | [], _, p, q, q2, h, _ => by simp [assigned] at h
  | x :: t, hp, p, q, q2, h1, h2 => by
    obtain ⟨hx_rel, hp_t⟩ := List.pairwise_cons.mp hp
    have hxt : x ∉ t := fun hmem => lt_irrefl _ (hx_rel x hmem)
    rw [assigned] at h1 h2
    cases hf : t.find? (fun q0 => ops.contains q0.2 x.2) with
    | none =>
      rw [hf] at h1 h2
      exact assigned_fst_unique ops t hp_t p q q2 h1 h2
    | some q0 =>
      rw [hf] at h1 h2
      rcases List.mem_cons.mp h1 with he1 | ht1 <;> rcases List.mem_cons.mp h2 with he2 | ht2
      · have hq : q = q0 := congrArg Prod.snd he1
        have hq2 : q2 = q0 := congrArg Prod.snd he2
        rw [hq, hq2]
      · have hpx : p = x := congrArg Prod.fst he1
        have hmem := (assigned_mem_mem ops t p q2 ht2).1
        rw [hpx] at hmem
        exact absurd hmem hxt
      · have hpx : p = x := congrArg Prod.fst he2
        have hmem := (assigned_mem_mem ops t p q ht1).1
        rw [hpx] at hmem
        exact absurd hmem hxt
      · exact assigned_fst_unique ops t hp_t p q q2 ht1 ht2

theorem graph_char {P W : Type} (ops : ShapelyOps P W) (L : List (String × P)) (k : String)
    (c : String × P) :
    c ∈ childrenOf (build_containment_graph ops L) k ↔
      ∃ q, (c, q) ∈ assigned ops
          (L.mergeSort (fun a b => decide (ops.area a.2 ≤ ops.area b.2))) ∧ q.1 = k := by
  have hkeys : (L.map (fun p => (p.1, ([] : List (String × P))))).map Prod.fst
      = L.map Prod.fst := by
    rw [List.map_map]
    rfl
  have hl : ∀ pq ∈ assigned ops
      (L.mergeSort (fun a b => decide (ops.area a.2 ≤ ops.area b.2))),
      pq.2.1 ∈ (L.map (fun p => (p.1, ([] : List (String × P))))).map Prod.fst := by
    intro pq hpq
    have hpq2 : (pq.1, pq.2) ∈ assigned ops
        (L.mergeSort (fun a b => decide (ops.area a.2 ≤ ops.area b.2))) := by
      simpa using hpq
    have hmem := (assigned_mem_mem ops _ pq.1 pq.2 hpq2).2
    rw [hkeys]
    exact List.mem_map_of_mem Prod.fst ((List.mergeSort_perm L _).mem_iff.mp hmem)
  have hchar := childrenOf_foldl
    (assigned ops (L.mergeSort (fun a b => decide (ops.area a.2 ≤ ops.area b.2))))
    (L.map (fun p => (p.1, ([] : List (String × P))))) hl k c
  rw [childrenOf_init] at hchar
  have hgraph : build_containment_graph ops L =
      (assigned ops (L.mergeSort (fun a b => decide (ops.area a.2 ≤ ops.area b.2)))).foldl
        (fun acc pq => updateFirst acc pq.2.1 pq.1)
        (L.map (fun p => (p.1, ([] : List (String × P))))) := by
    unfold build_containment_graph
    exact cgLoop_eq_foldl ops _ _
  rw [hgraph, hchar]
  simp

/-- **C2.**  For every input list of named simple polygons with pairwise
distinct areas and names (the source keys its graph by polygon name), and
with geometric containment abstracted as any relation where a strict
container has strictly larger area, `_build_containment_graph` records
each polygon as an immediate child of exactly the smallest-area polygon
that contains it: (a) whenever `p` appears under key `k`, the key is the
name of a minimal-area container of `p`; (b) if some other polygon
contains `p`, then `p` does appear under some key (a root only if no
polygon contains it); (c) `p` is a child of at most one container.  For a
strict nesting chain A ⊃ B ⊃ C this yields exactly the edges A→B and B→C,
never A→C. -/
theorem containment_graph_immediate {P W : Type} (ops : ShapelyOps P W)
    (L : List (String × P))
    (harea : L.Pairwise (fun a b => ops.area a.2 ≠ ops.area b.2))
    (hmono : ∀ a ∈ L, ∀ b ∈ L, ops.contains a.2 b.2 = true → a ≠ b →
      ops.area b.2 < ops.area a.2) :
    ∀ p ∈ L,
      (∀ k, p ∈ childrenOf (build_containment_graph ops L) k →
        ∃ q, q ∈ L ∧ q.1 = k ∧ q ≠ p ∧ ops.contains q.2 p.2 = true ∧
          ∀ r ∈ L, r ≠ p → ops.contains r.2 p.2 = true →
            ops.area q.2 ≤ ops.area r.2) ∧
      ((∃ q, q ∈ L ∧ q ≠ p ∧ ops.contains q.2 p.2 = true) →
        ∃ k, p ∈ childrenOf (build_containment_graph ops L) k) ∧
      (∀ k k2, p ∈ childrenOf (build_containment_graph ops L) k →
        p ∈ childrenOf (build_containment_graph ops L) k2 → k = k2) := by
  have hperm : (L.mergeSort (fun a b => decide (ops.area a.2 ≤ ops.area b.2))).Perm L :=
    List.mergeSort_perm L _
  have hsorted : (L.mergeSort (fun a b => decide (ops.area a.2 ≤ ops.area b.2))).Pairwise
      (fun a b => ops.area a.2 ≤ ops.area b.2) := by
    have hs := List.sorted_mergeSort
      (fun a b c (hab : decide (ops.area a.2 ≤ ops.area b.2) = true)
          (hbc : decide (ops.area b.2 ≤ ops.area c.2) = true) => by
        simp only [decide_eq_true_eq] at hab hbc ⊢
        exact le_trans hab hbc)
      (fun a b => by
        simp only [Bool.or_eq_true, decide_eq_true_eq]
        exact le_total _ _) L
    exact hs.imp (fun h => by simpa using h)
  have hne : (L.mergeSort (fun a b => decide (ops.area a.2 ≤ ops.area b.2))).Pairwise
      (fun a b => ops.area a.2 ≠ ops.area b.2) :=
    (hperm.pairwise_iff (fun h => h.symm)).mpr harea
  have hstrict : (L.mergeSort (fun a b => decide (ops.area a.2 ≤ ops.area b.2))).Pairwise
      (fun a b => ops.area a.2 < ops.area b.2) :=
    (hsorted.and hne).imp (fun h => lt_of_le_of_ne h.1 h.2)
  have hmonoS : ∀ a ∈ L.mergeSort (fun a b => decide (ops.area a.2 ≤ ops.area b.2)),
      ∀ b ∈ L.mergeSort (fun a b => decide (ops.area a.2 ≤ ops.area b.2)),
      ops.contains a.2 b.2 = true → a ≠ b → ops.area b.2 < ops.area a.2 :=
    fun a ha b hb => hmono a (hperm.mem_iff.mp ha) b (hperm.mem_iff.mp hb)
  intro p hpL
  have hpS : p ∈ L.mergeSort (fun a b => decide (ops.area a.2 ≤ ops.area b.2)) :=
    hperm.mem_iff.mpr hpL
  refine ⟨?_, ?_, ?_⟩
  · intro k hk
    obtain ⟨q, hq, hqk⟩ := (graph_char ops L k p).mp hk
    obtain ⟨h1, h2, h3, h4, h5⟩ := assigned_spec ops _ hstrict hmonoS p q hq
    exact ⟨q, hperm.mem_iff.mp h2, hqk, h3, h4,
      fun r hr hrp hc => h5 r (hperm.mem_iff.mpr hr) hrp hc⟩
  · rintro ⟨q, hqL, hqp, hcont⟩
    obtain ⟨q2, hq2⟩ := assigned_exists ops _ hstrict hmonoS p hpS
      ⟨q, hperm.mem_iff.mpr hqL, hqp, hcont⟩
    exact ⟨q2.1, (graph_char ops L q2.1 p).mpr ⟨q2, hq2, rfl⟩⟩
  · intro k k2 hk hk2
    obtain ⟨q, hq, hqk⟩ := (graph_char ops L k p).mp hk
    obtain ⟨q2, hq2, hq2k⟩ := (graph_char ops L k2 p).mp hk2
    have huniq := assigned_fst_unique ops _ hstrict p q q2 hq hq2
    rw [← hqk, ← hq2k, huniq]

/-- Witness for `containment_graph_immediate`: the chain A ⊃ B ⊃ C (areas
3 > 2 > 1, containment = strictly larger area, so A also contains C
transitively); the theorem applies and in particular forces the immediate
edges A→B and B→C only. -/
theorem containment_graph_immediate_witness :
    chainPolys.Pairwise (fun a b => ratOps.area a.2 ≠ ratOps.area b.2) ∧
      (∀ a ∈ chainPolys, ∀ b ∈ chainPolys, ratOps.contains a.2 b.2 = true → a ≠ b →
        ratOps.area b.2 < ratOps.area a.2) ∧
      ∀ p ∈ chainPolys,
        (∀ k, p ∈ childrenOf (build_containment_graph ratOps chainPolys) k →
          ∃ q, q ∈ chainPolys ∧ q.1 = k ∧ q ≠ p ∧ ratOps.contains q.2 p.2 = true ∧
            ∀ r ∈ chainPolys, r ≠ p → ratOps.contains r.2 p.2 = true →
              ratOps.area q.2 ≤ ratOps.area r.2) ∧
        ((∃ q, q ∈ chainPolys ∧ q ≠ p ∧ ratOps.contains q.2 p.2 = true) →
          ∃ k, p ∈ childrenOf (build_containment_graph ratOps chainPolys) k) ∧
        (∀ k k2, p ∈ childrenOf (build_containment_graph ratOps chainPolys) k →
          p ∈ childrenOf (build_containment_graph ratOps chainPolys) k2 → k = k2) := by
  have harea : chainPolys.Pairwise (fun a b => ratOps.area a.2 ≠ ratOps.area b.2) := by
    decide
  have hmono : ∀ a ∈ chainPolys, ∀ b ∈ chainPolys, ratOps.contains a.2 b.2 = true →
      a ≠ b → ratOps.area b.2 < ratOps.area a.2 := by
    decide
  exact ⟨harea, hmono, containment_graph_immediate ratOps chainPolys harea hmono⟩
